import Mathlib

/-!
Shallow embedding of `lib/core-net/sequencer.c` (libwebsockets cooperative
event sequencer).

Modelling conventions:
* A sequencer "pointer" is a `Nat` address; the per-thread context carries an
  association list `store` from addresses to sequencer records, standing for
  the allocated `lws_seq_t` objects.  A `none` lookup is a freed/dangling
  pointer (dereferencing one is undefined behaviour in C; the model makes the
  operations total and the theorems carry validity hypotheses).
* `lws_dll2` owner lists become Lean lists of addresses (insertion order, head
  first).  A dll2 node is linked into at most one owner at a time, so removal
  is modelled as removing every occurrence of the address, which coincides
  with removing the single node in every reachable state.
* Allocation (`lws_zalloc`) is modelled by an explicit `Bool` oracle argument:
  `true` means the allocation succeeds.
* The sequencer callback is modelled as a pure function from
  (address, event kind, data, aux) to its integer return code; each operation
  additionally returns the list of callback invocations it performed, in
  order, so that delivery order and delivery counts are observable.
* Locks are not modelled (the embedding is sequential); "at a lock-quiescent
  point" becomes "after the operation returns".
* The opaque pointers `data`/`aux` and the monotonic/wall clocks are modelled
  as integers supplied by the caller.
-/

/-- Modelled from the spec: the event-kind enum `lws_seq_events_t` is declared
in a public header that is not part of the sources under study; the spec lists
the system-reserved kinds CREATED, DESTROYED, TIMED_OUT, HEARTBEAT plus
domain-specific kinds.  Only distinctness of the tags matters here. -/
def LWSSEQ_CREATED : Nat := 0

def LWSSEQ_DESTROYED : Nat := 1

def LWSSEQ_TIMED_OUT : Nat := 2

def LWSSEQ_HEARTBEAT : Nat := 3

def LWSSEQ_WSI_CONN_FAIL : Nat := 4

def LWSSEQ_WSI_CONN_CLOSE : Nat := 5

/-- Modelled from the spec: callback control codes, CONTINUE = 0. -/
def LWSSEQ_RET_CONTINUE : Nat := 0

def LWSSEQ_RET_DESTROY : Nat := 1

def LWS_US_PER_SEC : Int := 1000000

/-- `#define QUEUE_SANITY_LIMIT 10` in sequencer.c. -/
def QUEUE_SANITY_LIMIT : Nat := 10

/-- One queued event (`lws_seq_event_t`): kind plus the two opaque,
caller-owned references. -/
structure lws_seq_event_t where
  e : Nat
  data : Nat
  aux : Nat
deriving DecidableEq, Repr

/-- One sequencer (`lws_seq_t`): its event queue (head first, tail = newest),
name, creation timestamp (microseconds, from `lws_now_usecs()`), and the
`going_down` guard.  The intrusive list nodes and the `pt` back pointer live
in the context structure of the model instead. -/
structure lws_seq_t where
  seq_event_owner : List lws_seq_event_t
  name : String
  time_created : Int
  going_down : Bool
deriving DecidableEq, Repr

/-- The per-thread context (`lws_context_per_thread`), restricted to the
fields sequencer.c uses: the heap of allocated sequencers, the live list
`seq_owner`, the pending list `seq_pend_owner`, the deadline-sorted list
`seq_to_owner` (address, absolute deadline in microseconds), and
`last_heartbeat`. -/
structure lws_context_per_thread where
  store : List (Nat × lws_seq_t)
  seq_owner : List Nat
  seq_pend_owner : List Nat
  seq_to_owner : List (Nat × Int)
  last_heartbeat : Int
deriving DecidableEq, Repr

/-- Look an address up in the heap (first matching entry). -/
def storeGet : List (Nat × lws_seq_t) → Nat → Option lws_seq_t
  | [], _ => none
  | p :: t, sid => if p.1 = sid then some p.2 else storeGet t sid

/-- Overwrite the (first) entry at an address, leaving the heap unchanged if
the address is absent. -/
def storeSet : List (Nat × lws_seq_t) → Nat → lws_seq_t → List (Nat × lws_seq_t)
  | [], _, _ => []
  | p :: t, sid, v => if p.1 = sid then (sid, v) :: t else p :: storeSet t sid v

/-- Free the object at an address (`lws_free`). -/
def storeRemove : List (Nat × lws_seq_t) → Nat → List (Nat × lws_seq_t)
  | [], _ => []
  | p :: t, sid => if p.1 = sid then storeRemove t sid else p :: storeRemove t sid

/-- The addresses of the allocated sequencers. -/
def storeKeys (st : List (Nat × lws_seq_t)) : List Nat := st.map Prod.fst

/-- Modelled from the spec: `lws_dll2_remove` detaches a node from the owner
list it is linked in (a node is linked at most once). -/
def dll2_remove : List Nat → Nat → List Nat
  | [], _ => []
  | x :: t, sid => if x = sid then dll2_remove t sid else x :: dll2_remove t sid

/-- Modelled from the spec: removing a sequencer's node from the
deadline-ordered list. -/
def sul_remove : List (Nat × Int) → Nat → List (Nat × Int)
  | [], _ => []
  | p :: t, sid => if p.1 = sid then sul_remove t sid else p :: sul_remove t sid

/-- The event queue of the sequencer at an address (empty if the address is
not an allocated sequencer). -/
def queueOf (pt : lws_context_per_thread) (sid : Nat) : List lws_seq_event_t :=
  match storeGet pt.store sid with
  | none => []
  | some s => s.seq_event_owner

/-- A pure model of the sequencer callback: (address, event kind, data, aux)
to the integer return code (0 = LWSSEQ_RET_CONTINUE, nonzero = destroy). -/
abbrev SeqCb := Nat → Nat → Nat → Nat → Nat

/-- One recorded callback invocation: target address and the delivered
(event kind, data, aux). -/
structure CbCall where
  sid : Nat
  e : Nat
  data : Nat
  aux : Nat
deriving DecidableEq, Repr

/-- Result of `lws_seq_queue_event`: the C return value, whether the
queue-depth sanity warning was logged, and the updated context. -/
structure QueueResult where
  ret : Nat
  logged : Bool
  pt : lws_context_per_thread
deriving DecidableEq, Repr

/-- `lws_seq_queue_event` (sequencer.c lines 145–180).  Rejects (returns 1)
when the sequencer pointer is NULL (`seq = none`), dangling, or its
`going_down` is set, or when the event-node allocation fails; otherwise logs
(only) if the queue already holds more than QUEUE_SANITY_LIMIT events,
appends the new event at the queue tail and, if the sequencer's pending-list
node is detached, links it at the tail of the context's pending list. -/
def lws_seq_queue_event (pt : lws_context_per_thread) (seq : Option Nat)
    (alloc_ok : Bool) (e dat ax : Nat) : QueueResult :=
  match seq with
  | none => ⟨1, false, pt⟩
  | some sid =>
    match storeGet pt.store sid with
    | none => ⟨1, false, pt⟩
    | some s =>
      if s.going_down then ⟨1, false, pt⟩
      else if alloc_ok = false then ⟨1, false, pt⟩
      else
        ⟨0, decide (QUEUE_SANITY_LIMIT < s.seq_event_owner.length),
         { pt with
             store := storeSet pt.store sid
               { s with seq_event_owner := s.seq_event_owner ++ [⟨e, dat, ax⟩] },
             seq_pend_owner :=
               if sid ∈ pt.seq_pend_owner then pt.seq_pend_owner
               else pt.seq_pend_owner ++ [sid] }⟩

/-- Result of `lws_seq_destroy`: the context as it stands while the DESTROYED
callback is running (`pt_at_cb`), the callback invocations performed, and the
final context. -/
structure DestroyResult where
  pt_at_cb : lws_context_per_thread
  log : List CbCall
  pt : lws_context_per_thread
deriving DecidableEq, Repr

/-- `lws_seq_destroy` (sequencer.c lines 108–130).  Sets `going_down`, then
synchronously invokes the callback once with LWSSEQ_DESTROYED (NULL data/aux,
modelled as 0; the call is not taken from the queue), then removes the
sequencer from the live, deadline and pending lists, frees every still-queued
event (they are stored inside the sequencer record, so freeing the record
frees them) and frees the sequencer itself.  It is total: it always
completes.  Called on a dangling address (undefined behaviour in C) the model
is the identity. -/
def lws_seq_destroy (pt : lws_context_per_thread) (sid : Nat) (cb : SeqCb) :
    DestroyResult :=
  match storeGet pt.store sid with
  | none => ⟨pt, [], pt⟩
  | some s =>
    let pt1 : lws_context_per_thread :=
      { pt with store := storeSet pt.store sid { s with going_down := true } }
    let _n := cb sid LWSSEQ_DESTROYED 0 0
    ⟨pt1, [⟨sid, LWSSEQ_DESTROYED, 0, 0⟩],
     { store := storeRemove pt1.store sid,
       seq_owner := dll2_remove pt1.seq_owner sid,
       seq_pend_owner := dll2_remove pt1.seq_pend_owner sid,
       seq_to_owner := sul_remove pt1.seq_to_owner sid,
       last_heartbeat := pt1.last_heartbeat }⟩

/-- Result of `lws_seq_next_event`: its return code, the delivered event, the
context as the callback observes it (`pt_at_cb`), the callback invocations,
and the final context. -/
structure DispatchResult where
  ret : Nat
  delivered : lws_seq_event_t
  pt_at_cb : lws_context_per_thread
  log : List CbCall
  pt : lws_context_per_thread
deriving DecidableEq, Repr

/-- `lws_seq_next_event` (sequencer.c lines 223–268).  Reads the queue head
(without detaching it), invokes the callback on it, then detaches and frees
the head and, if the queue became empty, detaches the sequencer from the
pending list; a nonzero callback return destroys the sequencer.  The C code
asserts that the queue is non-empty; that case (and a dangling address)
yields `none`. -/
def lws_seq_next_event (pt : lws_context_per_thread) (sid : Nat) (cb : SeqCb) :
    Option DispatchResult :=
  match storeGet pt.store sid with
  | none => none
  | some s =>
    match s.seq_event_owner with
    | [] => none
    | seqe :: rest =>
      let n := cb sid seqe.e seqe.data seqe.aux
      let pt1 : lws_context_per_thread :=
        { pt with
            store := storeSet pt.store sid { s with seq_event_owner := rest },
            seq_pend_owner :=
              if rest.isEmpty then dll2_remove pt.seq_pend_owner sid
              else pt.seq_pend_owner }
      if n ≠ 0 then
        let d := lws_seq_destroy pt1 sid cb
        some ⟨LWSSEQ_RET_DESTROY, seqe, pt,
              ⟨sid, seqe.e, seqe.data, seqe.aux⟩ :: d.log, d.pt⟩
      else
        some ⟨LWSSEQ_RET_CONTINUE, seqe, pt,
              [⟨sid, seqe.e, seqe.data, seqe.aux⟩], pt1⟩

/-- Result of a dispatch pass: the value returned to the caller, the callback
invocations in order, and the final context. -/
structure PassResult where
  ret : Nat
  log : List CbCall
  pt : lws_context_per_thread
deriving DecidableEq, Repr

/-- Modelled from the spec: `lws_dll2_foreach_safe` over the pending list —
the iteration snapshot is taken at entry, the saved successor survives
removal of the current node, and the walk stops (returning 1) as soon as a
body invocation returns nonzero.  The body is `lws_seq_next_event`; an
address on which it yields `none` (violated assertion) is skipped. -/
def seqPendForeach (cb : SeqCb) : List Nat → lws_context_per_thread → PassResult
  | [], pt => ⟨0, [], pt⟩
  | sid :: rest, pt =>
    match lws_seq_next_event pt sid cb with
    | none => seqPendForeach cb rest pt
    | some r =>
      if r.ret ≠ 0 then ⟨1, r.log, r.pt⟩
      else
        let r2 := seqPendForeach cb rest r.pt
        ⟨r2.ret, r.log ++ r2.log, r2.pt⟩

/-- `lws_pt_do_pending_sequencer_events` (sequencer.c lines 275–283): no-op
returning 0 when the pending list is empty, otherwise one
`lws_seq_next_event` per pending sequencer via the safe foreach. -/
def lws_pt_do_pending_sequencer_events (pt : lws_context_per_thread)
    (cb : SeqCb) : PassResult :=
  if pt.seq_pend_owner.isEmpty then ⟨0, [], pt⟩
  else seqPendForeach cb pt.seq_pend_owner pt

/-- Modelled from the spec: the sorted-timeout-list collaborator
`__lws_sul_check` — walks the deadline-ordered list (ascending), pops every
entry whose deadline has passed and reports it as fired, and returns the
fired addresses in order, the remaining list, and the microsecond delay until
the next deadline (0 if none pending). -/
def __lws_sul_check (own : List (Nat × Int)) (usnow : Int) :
    List Nat × List (Nat × Int) × Int :=
  match own with
  | [] => ([], [], 0)
  | (sid, us) :: t =>
    if us ≤ usnow then
      let r := __lws_sul_check t usnow
      (sid :: r.1, r.2.1, r.2.2)
    else ([], (sid, us) :: t, us - usnow)

/-- Fold helper shared by the TIMED_OUT and HEARTBEAT loops of
`__lws_seq_timeout_check`: queue an event of one kind to each listed
sequencer in turn, discarding every return value. -/
def qefold (l : List Nat) (alloc : Bool) (k d a : Nat)
    (pt : lws_context_per_thread) : lws_context_per_thread :=
  l.foldl (fun p sid => (lws_seq_queue_event p (some sid) alloc k d a).pt) pt

/-- `__lws_seq_timeout_check` (sequencer.c lines 309–332).  Runs the sul
check, queueing LWSSEQ_TIMED_OUT (via `lws_seq_sul_check_cb`, return value
discarded) to each fired sequencer; then, unless less than one second has
elapsed since `last_heartbeat`, sets `last_heartbeat := usnow` and queues
LWSSEQ_HEARTBEAT (return value discarded) to every sequencer on the live
list.  Returns the delay until the next deadline and the new context.  The
allocation oracle applies to every event-node allocation in the call. -/
def __lws_seq_timeout_check (pt : lws_context_per_thread) (usnow : Int)
    (alloc_ok : Bool) : Int × lws_context_per_thread :=
  let r := __lws_sul_check pt.seq_to_owner usnow
  let pt2 := qefold r.1 alloc_ok LWSSEQ_TIMED_OUT 0 0 { pt with seq_to_owner := r.2.1 }
  if usnow - pt2.last_heartbeat < LWS_US_PER_SEC then (r.2.2, pt2)
  else
    let pt3 : lws_context_per_thread := { pt2 with last_heartbeat := usnow }
    (r.2.2, qefold pt3.seq_owner alloc_ok LWSSEQ_HEARTBEAT 0 0 pt3)

/-- Result of `lws_seq_create`: the returned `lws_seq_t *` (none = NULL), the
value written through `*i->puser` (none = never written), and the context. -/
structure CreateResult where
  ret : Option Nat
  puser : Option Nat
  pt : lws_context_per_thread
deriving DecidableEq, Repr

/-- `lws_seq_create` (sequencer.c lines 58–94).  Addresses are measured in
units of `sizeof(lws_seq_t)`, so `&seq[1]` — the trailing user-state block,
written through `*i->puser` — is `a + 1`.  The fresh address `a` and the two
allocation outcomes (sequencer+user block, CREATED event node) are supplied
by the caller.  On event-queueing failure the sequencer is unlinked from the
live list and freed, and NULL is returned (note `*i->puser` has already been
written by then). -/
def lws_seq_create (pt : lws_context_per_thread) (a : Nat)
    (alloc_seq alloc_ev : Bool) (nm : String) (now_usecs : Int) : CreateResult :=
  if alloc_seq = false then ⟨none, none, pt⟩
  else
    let seq : lws_seq_t :=
      { seq_event_owner := [], name := nm, time_created := now_usecs,
        going_down := false }
    let pt1 : lws_context_per_thread :=
      { pt with store := (a, seq) :: pt.store,
                seq_owner := pt.seq_owner ++ [a] }
    let q := lws_seq_queue_event pt1 (some a) alloc_ev LWSSEQ_CREATED 0 0
    if q.ret ≠ 0 then
      ⟨none, some (a + 1),
       { q.pt with store := storeRemove q.pt.store a,
                   seq_owner := dll2_remove q.pt.seq_owner a }⟩
    else ⟨some a, some (a + 1), q.pt⟩

/-- `lws_seq_from_user` (sequencer.c lines 334–338): `&((lws_seq_t *)u)[-1]`,
i.e. one sequencer-header below the user-state pointer. -/
def lws_seq_from_user (u : Nat) : Nat := u - 1

/-- `lws_seq_secs_since_creation` (sequencer.c lines 346–354): reads the
wall-clock-seconds clock (`time(&now)`, supplied here as `now_secs`) and
returns `now - seq->time_created` — note `time_created` was captured from the
microsecond clock. -/
def lws_seq_secs_since_creation (seq : lws_seq_t) (now_secs : Int) : Int :=
  now_secs - seq.time_created

/-- Modelled from the spec: the age accessor is specified as "the number of
wall-clock seconds elapsed between the sequencer's creation and the time of
the call"; creation happened at microsecond timestamp `time_created`, i.e. at
wall-clock second `time_created / LWS_US_PER_SEC`. -/
def specSecsSinceCreation (seq : lws_seq_t) (now_secs : Int) : Int :=
  now_secs - seq.time_created / LWS_US_PER_SEC

/-- The pending-set invariant of the spec: an allocated sequencer is on the
pending list iff its event queue is non-empty. -/
def pendingInvariant (pt : lws_context_per_thread) : Prop :=
  ∀ sid ∈ storeKeys pt.store, (sid ∈ pt.seq_pend_owner ↔ queueOf pt sid ≠ [])

instance (pt : lws_context_per_thread) : Decidable (pendingInvariant pt) := by
  unfold pendingInvariant
  exact List.decidableBAll _ _

/-- Number of callback invocations a log records for one sequencer. -/
def deliveredTo (log : List CbCall) (sid : Nat) : Nat :=
  log.countP (fun c => c.sid == sid)

/-- Number of HEARTBEAT events in a queue. -/
def heartbeatsIn (q : List lws_seq_event_t) : Nat :=
  q.countP (fun ev => ev.e == LWSSEQ_HEARTBEAT)

/-- The callback that always answers LWSSEQ_RET_CONTINUE. -/
def cbContinue : SeqCb := fun _ _ _ _ => 0

/-- Queue a list of events to one sequencer, in order, with every allocation
succeeding. -/
def queueEvents (pt : lws_context_per_thread) (sid : Nat)
    (evs : List lws_seq_event_t) : lws_context_per_thread :=
  evs.foldl (fun p ev => (lws_seq_queue_event p (some sid) true ev.e ev.data ev.aux).pt) pt

/-- Run `k` successive dispatch passes, concatenating their callback logs. -/
def dispatchPasses (cb : SeqCb) : Nat → lws_context_per_thread →
    List CbCall × lws_context_per_thread
  | 0, pt => ([], pt)
  | k + 1, pt =>
    let r := lws_pt_do_pending_sequencer_events pt cb
    let r2 := dispatchPasses cb k r.pt
    (r.log ++ r2.1, r2.2)

/-- A context holding exactly one live sequencer with the given queue and no
armed deadline. -/
def singleSeqPT (sid : Nat) (nm : String) (tc hb : Int)
    (q : List lws_seq_event_t) : lws_context_per_thread :=
  { store := [(sid, { seq_event_owner := q, name := nm, time_created := tc,
                      going_down := false })],
    seq_owner := [sid],
    seq_pend_owner := if q.isEmpty then [] else [sid],
    seq_to_owner := [],
    last_heartbeat := hb }

/-- The empty per-thread context. -/
def ptEmpty : lws_context_per_thread :=
  { store := [], seq_owner := [], seq_pend_owner := [], seq_to_owner := [],
    last_heartbeat := 0 }

/-! ### Heap and list lemmas -/

theorem storeGet_set_self (st : List (Nat × lws_seq_t)) (sid : Nat)
    (s v : lws_seq_t) :
    storeGet st sid = some s → storeGet (storeSet st sid v) sid = some v := by
  induction st with
  | nil => intro h; simp [storeGet] at h
  | cons p t ih =>
    intro h
    by_cases hp : p.1 = sid
    · simp [storeSet, hp, storeGet]
    · simp only [storeGet, hp, if_false] at h
      simpa [storeSet, hp, storeGet] using ih h

theorem storeGet_set_ne (st : List (Nat × lws_seq_t)) (sid x : Nat)
    (v : lws_seq_t) (hx : x ≠ sid) :
    storeGet (storeSet st sid v) x = storeGet st x := by
  induction st with
  | nil => rfl
  | cons p t ih =>
    by_cases hp : p.1 = sid
    · have hsx : ¬(sid = x) := fun h => hx h.symm
      have hpx : ¬(p.1 = x) := by rw [hp]; exact hsx
      simp [storeSet, hp, storeGet, hsx, hpx]
    · simp [storeSet, hp, storeGet, ih]

theorem storeKeys_set (st : List (Nat × lws_seq_t)) (sid : Nat) (v : lws_seq_t) :
    storeKeys (storeSet st sid v) = storeKeys st := by
  induction st with
  | nil => rfl
  | cons p t ih =>
    by_cases hp : p.1 = sid
    · simp [storeSet, hp, storeKeys]
    · simp only [storeSet, hp, if_false]
      simp only [storeKeys, List.map_cons] at ih ⊢
      rw [ih]

theorem storeGet_remove_self (st : List (Nat × lws_seq_t)) (sid : Nat) :
    storeGet (storeRemove st sid) sid = none := by
  induction st with
  | nil => rfl
  | cons p t ih =>
    by_cases hp : p.1 = sid
    · simp only [storeRemove, hp, if_true, ih]
    · simp only [storeRemove, hp, if_false, storeGet, ih]

theorem storeGet_remove_ne (st : List (Nat × lws_seq_t)) (sid x : Nat)
    (hx : x ≠ sid) :
    storeGet (storeRemove st sid) x = storeGet st x := by
  induction st with
  | nil => rfl
  | cons p t ih =>
    by_cases hp : p.1 = sid
    · have hpx : ¬(p.1 = x) := fun h => hx (h.symm.trans hp)
      have hsx : ¬(sid = x) := fun h => hx h.symm
      simp [storeRemove, hp, storeGet, hpx, hsx, ih]
    · simp [storeRemove, hp, storeGet, ih]

theorem mem_storeKeys_of_get (st : List (Nat × lws_seq_t)) (sid : Nat)
    (s : lws_seq_t) (h : storeGet st sid = some s) : sid ∈ storeKeys st := by
  induction st with
  | nil => simp [storeGet] at h
  | cons p t ih =>
    by_cases hp : p.1 = sid
    · simp [storeKeys, hp.symm]
    · simp only [storeGet, hp, if_false] at h
      simp only [storeKeys, List.map_cons, List.mem_cons]
      exact Or.inr (ih h)

theorem mem_storeKeys_remove (st : List (Nat × lws_seq_t)) (sid x : Nat)
    (h : x ∈ storeKeys (storeRemove st sid)) : x ∈ storeKeys st ∧ x ≠ sid := by
  induction st with
  | nil => simp [storeRemove, storeKeys] at h
  | cons p t ih =>
    by_cases hp : p.1 = sid
    · simp only [storeRemove, hp, if_true] at h
      rcases ih h with ⟨h1, h2⟩
      exact ⟨by simp [storeKeys, List.mem_cons]; exact Or.inr (by simpa [storeKeys] using h1), h2⟩
    · simp only [storeRemove, hp, if_false, storeKeys, List.map_cons, List.mem_cons] at h
      rcases h with h | h
      · refine ⟨by simp [storeKeys, h], ?_⟩
        subst h
        exact fun hc => hp hc
      · rcases ih h with ⟨h1, h2⟩
        exact ⟨by simp only [storeKeys, List.map_cons, List.mem_cons]; exact Or.inr (by simpa [storeKeys] using h1), h2⟩

theorem mem_dll2_remove (l : List Nat) (sid x : Nat) :
    x ∈ dll2_remove l sid ↔ x ∈ l ∧ x ≠ sid := by
  induction l with
  | nil => simp [dll2_remove]
  | cons a t ih =>
    by_cases ha : a = sid
    · subst ha
      rw [show dll2_remove (a :: t) a = dll2_remove t a by simp [dll2_remove]]
      rw [ih]
      simp only [List.mem_cons]
      constructor
      · rintro ⟨h1, h2⟩; exact ⟨Or.inr h1, h2⟩
      · rintro ⟨h1 | h1, h2⟩
        · exact absurd h1 h2
        · exact ⟨h1, h2⟩
    · simp only [dll2_remove, ha, if_false, List.mem_cons, ih]
      constructor
      · rintro (h | ⟨h1, h2⟩)
        · exact ⟨Or.inl h, h ▸ ha⟩
        · exact ⟨Or.inr h1, h2⟩
      · rintro ⟨h1 | h1, h2⟩
        · exact Or.inl h1
        · exact Or.inr ⟨h1, h2⟩

theorem mem_sul_remove (l : List (Nat × Int)) (sid : Nat) (p : Nat × Int) :
    p ∈ sul_remove l sid ↔ p ∈ l ∧ p.1 ≠ sid := by
  induction l with
  | nil => simp [sul_remove]
  | cons a t ih =>
    by_cases ha : a.1 = sid
    · simp only [sul_remove, ha, if_true, ih, List.mem_cons]
      constructor
      · rintro ⟨h1, h2⟩; exact ⟨Or.inr h1, h2⟩
      · rintro ⟨h1 | h1, h2⟩
        · subst h1; exact absurd ha h2
        · exact ⟨h1, h2⟩
    · simp only [sul_remove, ha, if_false, List.mem_cons, ih]
      constructor
      · rintro (h | ⟨h1, h2⟩)
        · exact ⟨Or.inl h, h ▸ ha⟩
        · exact ⟨Or.inr h1, h2⟩
      · rintro ⟨h1 | h1, h2⟩
        · exact Or.inl h1
        · exact Or.inr ⟨h1, h2⟩

theorem sul_check_remaining_subset (l : List (Nat × Int)) (usnow : Int)
    (p : Nat × Int) (h : p ∈ (__lws_sul_check l usnow).2.1) : p ∈ l := by
  induction l with
  | nil => simp [__lws_sul_check] at h
  | cons a t ih =>
    by_cases ha : a.2 ≤ usnow
    · simp only [__lws_sul_check, ha, if_true] at h
      exact List.mem_cons_of_mem _ (ih h)
    · simp only [__lws_sul_check, ha, if_false] at h
      simpa using h

/-! ### lws_seq_queue_event characterizations -/

theorem queue_event_cases (pt : lws_context_per_thread) (seqOpt : Option Nat)
    (alloc : Bool) (e d a : Nat) :
    lws_seq_queue_event pt seqOpt alloc e d a = ⟨1, false, pt⟩ ∨
    ∃ sid s, seqOpt = some sid ∧ storeGet pt.store sid = some s ∧
      s.going_down = false ∧ alloc = true ∧
      lws_seq_queue_event pt seqOpt alloc e d a =
        ⟨0, decide (QUEUE_SANITY_LIMIT < s.seq_event_owner.length),
         { pt with
             store := storeSet pt.store sid
               { s with seq_event_owner := s.seq_event_owner ++ [⟨e, d, a⟩] },
             seq_pend_owner :=
               if sid ∈ pt.seq_pend_owner then pt.seq_pend_owner
               else pt.seq_pend_owner ++ [sid] }⟩ := by
  cases seqOpt with
  | none => exact Or.inl rfl
  | some sid =>
    cases hs : storeGet pt.store sid with
    | none => exact Or.inl (by simp [lws_seq_queue_event, hs])
    | some s =>
      cases hgd : s.going_down with
      | true => exact Or.inl (by simp [lws_seq_queue_event, hs, hgd])
      | false =>
        cases alloc with
        | false => exact Or.inl (by simp [lws_seq_queue_event, hs, hgd])
        | true =>
          exact Or.inr ⟨sid, s, rfl, hs, hgd, rfl,
            by simp [lws_seq_queue_event, hs, hgd]⟩

theorem queue_event_success (pt : lws_context_per_thread) (sid : Nat)
    (s : lws_seq_t) (e d a : Nat) (hs : storeGet pt.store sid = some s)
    (hgd : s.going_down = false) :
    lws_seq_queue_event pt (some sid) true e d a =
      ⟨0, decide (QUEUE_SANITY_LIMIT < s.seq_event_owner.length),
       { pt with
           store := storeSet pt.store sid
             { s with seq_event_owner := s.seq_event_owner ++ [⟨e, d, a⟩] },
           seq_pend_owner :=
             if sid ∈ pt.seq_pend_owner then pt.seq_pend_owner
             else pt.seq_pend_owner ++ [sid] }⟩ := by
  simp [lws_seq_queue_event, hs, hgd]

theorem queue_event_seq_owner (pt : lws_context_per_thread) (seqOpt : Option Nat)
    (alloc : Bool) (e d a : Nat) :
    (lws_seq_queue_event pt seqOpt alloc e d a).pt.seq_owner = pt.seq_owner := by
  rcases queue_event_cases pt seqOpt alloc e d a with h | ⟨sid, s, _, _, _, _, h⟩ <;> rw [h]

theorem queue_event_seq_to_owner (pt : lws_context_per_thread)
    (seqOpt : Option Nat) (alloc : Bool) (e d a : Nat) :
    (lws_seq_queue_event pt seqOpt alloc e d a).pt.seq_to_owner = pt.seq_to_owner := by
  rcases queue_event_cases pt seqOpt alloc e d a with h | ⟨sid, s, _, _, _, _, h⟩ <;> rw [h]

theorem queue_event_last_heartbeat (pt : lws_context_per_thread)
    (seqOpt : Option Nat) (alloc : Bool) (e d a : Nat) :
    (lws_seq_queue_event pt seqOpt alloc e d a).pt.last_heartbeat = pt.last_heartbeat := by
  rcases queue_event_cases pt seqOpt alloc e d a with h | ⟨sid, s, _, _, _, _, h⟩ <;> rw [h]

theorem queue_event_storeKeys (pt : lws_context_per_thread) (seqOpt : Option Nat)
    (alloc : Bool) (e d a : Nat) :
    storeKeys (lws_seq_queue_event pt seqOpt alloc e d a).pt.store = storeKeys pt.store := by
  rcases queue_event_cases pt seqOpt alloc e d a with h | ⟨sid, s, _, _, _, _, h⟩
  · rw [h]
  · rw [h]; exact storeKeys_set _ _ _

theorem queue_event_storeGet_ne (pt : lws_context_per_thread) (seqOpt : Option Nat)
    (alloc : Bool) (e d a x : Nat) (hx : seqOpt ≠ some x) :
    storeGet (lws_seq_queue_event pt seqOpt alloc e d a).pt.store x = storeGet pt.store x := by
  rcases queue_event_cases pt seqOpt alloc e d a with h | ⟨sid, s, ho, hs, _, _, h⟩
  · rw [h]
  · rw [h]
    exact storeGet_set_ne _ _ _ _ (fun hxe => hx (by rw [ho, hxe]))

theorem queue_event_alloc_false (pt : lws_context_per_thread)
    (seqOpt : Option Nat) (e d a : Nat) :
    lws_seq_queue_event pt seqOpt false e d a = ⟨1, false, pt⟩ := by
  rcases queue_event_cases pt seqOpt false e d a with h | ⟨sid, s, _, _, _, hal, _⟩
  · exact h
  · exact absurd hal (by decide)

theorem queue_event_going_down_target (pt : lws_context_per_thread) (sid : Nat)
    (s : lws_seq_t) (alloc : Bool) (e d a : Nat)
    (hs : storeGet pt.store sid = some s) (hgd : s.going_down = true) :
    lws_seq_queue_event pt (some sid) alloc e d a = ⟨1, false, pt⟩ := by
  simp [lws_seq_queue_event, hs, hgd]

theorem queue_event_going_down_map (pt : lws_context_per_thread)
    (seqOpt : Option Nat) (alloc : Bool) (e d a x : Nat) :
    (storeGet (lws_seq_queue_event pt seqOpt alloc e d a).pt.store x).map (fun s => s.going_down)
      = (storeGet pt.store x).map (fun s => s.going_down) := by
  rcases queue_event_cases pt seqOpt alloc e d a with h | ⟨sid, s, ho, hs, _, _, h⟩
  · rw [h]
  · rw [h]
    by_cases hxs : x = sid
    · subst hxs
      rw [storeGet_set_self _ _ _ _ hs, hs]
      rfl
    · rw [storeGet_set_ne _ _ _ _ hxs]

theorem heartbeatsIn_append (q1 q2 : List lws_seq_event_t) :
    heartbeatsIn (q1 ++ q2) = heartbeatsIn q1 + heartbeatsIn q2 := by
  simp [heartbeatsIn, List.countP_append]

theorem queue_event_heartbeatsIn (pt : lws_context_per_thread)
    (seqOpt : Option Nat) (alloc : Bool) (k d a x : Nat)
    (hk : (k == LWSSEQ_HEARTBEAT) = false) :
    heartbeatsIn (queueOf (lws_seq_queue_event pt seqOpt alloc k d a).pt x)
      = heartbeatsIn (queueOf pt x) := by
  rcases queue_event_cases pt seqOpt alloc k d a with h | ⟨sid, s, ho, hs, _, _, h⟩
  · rw [h]
  · rw [h]
    by_cases hxs : x = sid
    · subst hxs
      simp only [queueOf, storeGet_set_self _ _ _ _ hs, hs, heartbeatsIn_append]
      simp [heartbeatsIn, hk]
    · simp only [queueOf, storeGet_set_ne _ _ _ _ hxs]

theorem queue_event_pendingInvariant (pt : lws_context_per_thread)
    (seqOpt : Option Nat) (alloc : Bool) (e d a : Nat)
    (hinv : pendingInvariant pt) :
    pendingInvariant (lws_seq_queue_event pt seqOpt alloc e d a).pt := by
  rcases queue_event_cases pt seqOpt alloc e d a with h | ⟨sid, s, ho, hs, hgd, hal, h⟩
  · rw [h]; exact hinv
  · rw [h]
    intro x hx
    have hx0 : x ∈ storeKeys pt.store := by
      have := storeKeys_set pt.store sid
        { s with seq_event_owner := s.seq_event_owner ++ [⟨e, d, a⟩] }
      simpa [this] using hx
    by_cases hxs : x = sid
    · subst hxs
      have hq : queueOf
          { pt with
              store := storeSet pt.store x
                { s with seq_event_owner := s.seq_event_owner ++ [⟨e, d, a⟩] },
              seq_pend_owner :=
                if x ∈ pt.seq_pend_owner then pt.seq_pend_owner
                else pt.seq_pend_owner ++ [x] } x
          = s.seq_event_owner ++ [⟨e, d, a⟩] := by
        simp [queueOf, storeGet_set_self _ _ _ _ hs]
      rw [hq]
      by_cases hp : x ∈ pt.seq_pend_owner <;> simp [hp]
    · have hq : queueOf
          { pt with
              store := storeSet pt.store sid
                { s with seq_event_owner := s.seq_event_owner ++ [⟨e, d, a⟩] },
              seq_pend_owner :=
                if sid ∈ pt.seq_pend_owner then pt.seq_pend_owner
                else pt.seq_pend_owner ++ [sid] } x
          = queueOf pt x := by
        simp [queueOf, storeGet_set_ne _ _ _ _ hxs]
      rw [hq]
      have hmem : (x ∈ (if sid ∈ pt.seq_pend_owner then pt.seq_pend_owner
          else pt.seq_pend_owner ++ [sid])) ↔ x ∈ pt.seq_pend_owner := by
        by_cases hp : sid ∈ pt.seq_pend_owner <;> simp [hp, hxs]
      rw [show (x ∈ ({ pt with
              store := storeSet pt.store sid
                { s with seq_event_owner := s.seq_event_owner ++ [⟨e, d, a⟩] },
              seq_pend_owner :=
                if sid ∈ pt.seq_pend_owner then pt.seq_pend_owner
                else pt.seq_pend_owner ++ [sid] } : lws_context_per_thread).seq_pend_owner)
          = (x ∈ (if sid ∈ pt.seq_pend_owner then pt.seq_pend_owner
              else pt.seq_pend_owner ++ [sid])) from rfl]
      rw [hmem]
      exact hinv x hx0

/-! ### lws_seq_destroy and lws_seq_next_event characterizations -/

theorem destroy_eq (pt : lws_context_per_thread) (sid : Nat) (cb : SeqCb)
    (s : lws_seq_t) (hs : storeGet pt.store sid = some s) :
    lws_seq_destroy pt sid cb =
      ⟨{ pt with store := storeSet pt.store sid { s with going_down := true } },
       [⟨sid, LWSSEQ_DESTROYED, 0, 0⟩],
       { store := storeRemove (storeSet pt.store sid { s with going_down := true }) sid,
         seq_owner := dll2_remove pt.seq_owner sid,
         seq_pend_owner := dll2_remove pt.seq_pend_owner sid,
         seq_to_owner := sul_remove pt.seq_to_owner sid,
         last_heartbeat := pt.last_heartbeat }⟩ := by
  simp [lws_seq_destroy, hs]

theorem destroy_cases (pt : lws_context_per_thread) (sid : Nat) (cb : SeqCb) :
    (storeGet pt.store sid = none ∧ lws_seq_destroy pt sid cb = ⟨pt, [], pt⟩) ∨
    ∃ s, storeGet pt.store sid = some s ∧
      lws_seq_destroy pt sid cb =
        ⟨{ pt with store := storeSet pt.store sid { s with going_down := true } },
         [⟨sid, LWSSEQ_DESTROYED, 0, 0⟩],
         { store := storeRemove (storeSet pt.store sid { s with going_down := true }) sid,
           seq_owner := dll2_remove pt.seq_owner sid,
           seq_pend_owner := dll2_remove pt.seq_pend_owner sid,
           seq_to_owner := sul_remove pt.seq_to_owner sid,
           last_heartbeat := pt.last_heartbeat }⟩ := by
  cases hs : storeGet pt.store sid with
  | none => exact Or.inl ⟨rfl, by simp [lws_seq_destroy, hs]⟩
  | some s => exact Or.inr ⟨s, rfl, destroy_eq pt sid cb s hs⟩

theorem destroy_pendingInvariant (pt : lws_context_per_thread) (sid : Nat)
    (cb : SeqCb) (hinv : pendingInvariant pt) :
    pendingInvariant (lws_seq_destroy pt sid cb).pt := by
  rcases destroy_cases pt sid cb with ⟨_, h⟩ | ⟨s, hs, h⟩
  · rw [h]; exact hinv
  · rw [h]
    intro x hx
    rcases mem_storeKeys_remove _ _ _ hx with ⟨hx2, hxne⟩
    rw [storeKeys_set] at hx2
    have hq : queueOf
        ({ store := storeRemove (storeSet pt.store sid { s with going_down := true }) sid,
           seq_owner := dll2_remove pt.seq_owner sid,
           seq_pend_owner := dll2_remove pt.seq_pend_owner sid,
           seq_to_owner := sul_remove pt.seq_to_owner sid,
           last_heartbeat := pt.last_heartbeat } : lws_context_per_thread) x
        = queueOf pt x := by
      simp [queueOf, storeGet_remove_ne _ _ _ hxne, storeGet_set_ne _ _ _ _ hxne]
    rw [hq]
    have hm : (x ∈ dll2_remove pt.seq_pend_owner sid) ↔ x ∈ pt.seq_pend_owner := by
      rw [mem_dll2_remove]
      exact ⟨fun h2 => h2.1, fun h2 => ⟨h2, hxne⟩⟩
    exact hm.trans (hinv x hx2)

theorem next_event_continue (pt : lws_context_per_thread) (sid : Nat)
    (cb : SeqCb) (s : lws_seq_t) (ev : lws_seq_event_t)
    (rest : List lws_seq_event_t) (hs : storeGet pt.store sid = some s)
    (hq : s.seq_event_owner = ev :: rest)
    (hcb : cb sid ev.e ev.data ev.aux = 0) :
    lws_seq_next_event pt sid cb =
      some ⟨LWSSEQ_RET_CONTINUE, ev, pt, [⟨sid, ev.e, ev.data, ev.aux⟩],
        { pt with
            store := storeSet pt.store sid { s with seq_event_owner := rest },
            seq_pend_owner :=
              if rest.isEmpty then dll2_remove pt.seq_pend_owner sid
              else pt.seq_pend_owner }⟩ := by
  simp [lws_seq_next_event, hs, hq, hcb, LWSSEQ_RET_CONTINUE]

theorem next_event_none_or_cont (pt : lws_context_per_thread) (sid : Nat)
    (cb : SeqCb) (hcb : ∀ i e d a, cb i e d a = 0) :
    lws_seq_next_event pt sid cb = none ∨
    ∃ s ev rest, storeGet pt.store sid = some s ∧
      s.seq_event_owner = ev :: rest ∧
      lws_seq_next_event pt sid cb =
        some ⟨LWSSEQ_RET_CONTINUE, ev, pt, [⟨sid, ev.e, ev.data, ev.aux⟩],
          { pt with
              store := storeSet pt.store sid { s with seq_event_owner := rest },
              seq_pend_owner :=
                if rest.isEmpty then dll2_remove pt.seq_pend_owner sid
                else pt.seq_pend_owner }⟩ := by
  cases hs : storeGet pt.store sid with
  | none => exact Or.inl (by simp [lws_seq_next_event, hs])
  | some s =>
    cases hq : s.seq_event_owner with
    | nil => exact Or.inl (by simp [lws_seq_next_event, hs, hq])
    | cons ev rest =>
      exact Or.inr ⟨s, ev, rest, rfl, hq,
        next_event_continue pt sid cb s ev rest hs hq (hcb _ _ _ _)⟩

theorem pop_head_pendingInvariant (pt : lws_context_per_thread) (sid : Nat)
    (s : lws_seq_t) (ev : lws_seq_event_t) (rest : List lws_seq_event_t)
    (hs : storeGet pt.store sid = some s) (hq : s.seq_event_owner = ev :: rest)
    (hinv : pendingInvariant pt) :
    pendingInvariant
      { pt with
          store := storeSet pt.store sid { s with seq_event_owner := rest },
          seq_pend_owner :=
            if rest.isEmpty then dll2_remove pt.seq_pend_owner sid
            else pt.seq_pend_owner } := by
  intro x hx
  have hx0 : x ∈ storeKeys pt.store := by
    have hks := storeKeys_set pt.store sid { s with seq_event_owner := rest }
    simpa [hks] using hx
  by_cases hxs : x = sid
  · subst hxs
    have hq2 : queueOf
        { pt with
            store := storeSet pt.store x { s with seq_event_owner := rest },
            seq_pend_owner :=
              if rest.isEmpty then dll2_remove pt.seq_pend_owner x
              else pt.seq_pend_owner } x = rest := by
      simp [queueOf, storeGet_set_self _ _ _ _ hs]
    rw [hq2]
    clear hq2
    cases rest with
    | nil =>
      simp only [List.isEmpty_nil, if_true]
      constructor
      · intro hmem
        exact (((mem_dll2_remove _ _ _).mp hmem).2 rfl).elim
      · intro hne; exact absurd rfl hne
    | cons b bt =>
      have hx1 : x ∈ pt.seq_pend_owner := by
        apply (hinv x hx0).mpr
        simp [queueOf, hs, hq]
      simp [List.isEmpty_cons, hx1]
  · have hq2 : queueOf
        { pt with
            store := storeSet pt.store sid { s with seq_event_owner := rest },
            seq_pend_owner :=
              if rest.isEmpty then dll2_remove pt.seq_pend_owner sid
              else pt.seq_pend_owner } x = queueOf pt x := by
      simp [queueOf, storeGet_set_ne _ _ _ _ hxs]
    rw [hq2]
    have hm : (x ∈ (if rest.isEmpty then dll2_remove pt.seq_pend_owner sid
        else pt.seq_pend_owner)) ↔ x ∈ pt.seq_pend_owner := by
      cases rest.isEmpty with
      | true =>
        simp only [if_true]
        rw [mem_dll2_remove]
        exact ⟨fun h2 => h2.1, fun h2 => ⟨h2, hxs⟩⟩
      | false => simp
    exact hm.trans (hinv x hx0)

theorem next_event_pendingInvariant (pt : lws_context_per_thread) (sid : Nat)
    (cb : SeqCb) (r : DispatchResult) (hinv : pendingInvariant pt)
    (hr : lws_seq_next_event pt sid cb = some r) : pendingInvariant r.pt := by
  revert hr
  cases hs : storeGet pt.store sid with
  | none => intro hr; simp [lws_seq_next_event, hs] at hr
  | some s =>
    cases hq : s.seq_event_owner with
    | nil => intro hr; simp [lws_seq_next_event, hs, hq] at hr
    | cons ev rest =>
      intro hr
      have hbase := pop_head_pendingInvariant pt sid s ev rest hs hq hinv
      simp only [lws_seq_next_event, hs, hq] at hr
      by_cases hn : cb sid ev.e ev.data ev.aux = 0
      · simp only [hn, ne_eq, not_true_eq_false, if_false, reduceIte] at hr
        have hr2 := Option.some.inj hr
        rw [← hr2]
        exact hbase
      · simp only [hn, ne_eq, not_false_eq_true, if_true, reduceIte] at hr
        have hr2 := Option.some.inj hr
        rw [← hr2]
        exact destroy_pendingInvariant _ _ _ hbase

/-! ### qefold (TIMED_OUT / HEARTBEAT loops) characterizations -/

theorem qefold_nil (alloc : Bool) (k d a : Nat) (pt : lws_context_per_thread) :
    qefold [] alloc k d a pt = pt := rfl

theorem qefold_cons (x : Nat) (t : List Nat) (alloc : Bool) (k d a : Nat)
    (pt : lws_context_per_thread) :
    qefold (x :: t) alloc k d a pt =
      qefold t alloc k d a (lws_seq_queue_event pt (some x) alloc k d a).pt := rfl

theorem qefold_alloc_false (l : List Nat) (k d a : Nat) :
    ∀ pt, qefold l false k d a pt = pt := by
  induction l with
  | nil => intro pt; rfl
  | cons x t ih =>
    intro pt
    rw [qefold_cons, queue_event_alloc_false]
    exact ih pt

theorem qefold_seq_owner (l : List Nat) (alloc : Bool) (k d a : Nat) :
    ∀ pt, (qefold l alloc k d a pt).seq_owner = pt.seq_owner := by
  induction l with
  | nil => intro pt; rfl
  | cons x t ih => intro pt; rw [qefold_cons, ih, queue_event_seq_owner]

theorem qefold_seq_to_owner (l : List Nat) (alloc : Bool) (k d a : Nat) :
    ∀ pt, (qefold l alloc k d a pt).seq_to_owner = pt.seq_to_owner := by
  induction l with
  | nil => intro pt; rfl
  | cons x t ih => intro pt; rw [qefold_cons, ih, queue_event_seq_to_owner]

theorem qefold_last_heartbeat (l : List Nat) (alloc : Bool) (k d a : Nat) :
    ∀ pt, (qefold l alloc k d a pt).last_heartbeat = pt.last_heartbeat := by
  induction l with
  | nil => intro pt; rfl
  | cons x t ih => intro pt; rw [qefold_cons, ih, queue_event_last_heartbeat]

theorem qefold_storeKeys (l : List Nat) (alloc : Bool) (k d a : Nat) :
    ∀ pt, storeKeys (qefold l alloc k d a pt).store = storeKeys pt.store := by
  induction l with
  | nil => intro pt; rfl
  | cons x t ih => intro pt; rw [qefold_cons, ih, queue_event_storeKeys]

theorem qefold_storeGet_notmem (l : List Nat) (alloc : Bool) (k d a y : Nat)
    (hy : y ∉ l) :
    ∀ pt, storeGet (qefold l alloc k d a pt).store y = storeGet pt.store y := by
  induction l with
  | nil => intro pt; rfl
  | cons x t ih =>
    intro pt
    have hyx : y ≠ x := fun hc => hy (hc ▸ List.mem_cons_self x t)
    have hyt : y ∉ t := fun hc => hy (List.mem_cons_of_mem x hc)
    rw [qefold_cons, ih hyt,
      queue_event_storeGet_ne pt (some x) alloc k d a y
        (fun hc => hyx (Option.some.inj hc).symm)]

theorem qefold_going_down_map (l : List Nat) (alloc : Bool) (k d a y : Nat) :
    ∀ pt, (storeGet (qefold l alloc k d a pt).store y).map (fun s => s.going_down)
      = (storeGet pt.store y).map (fun s => s.going_down) := by
  induction l with
  | nil => intro pt; rfl
  | cons x t ih => intro pt; rw [qefold_cons, ih, queue_event_going_down_map]

theorem qefold_heartbeatsIn (l : List Nat) (alloc : Bool) (k d a y : Nat)
    (hk : (k == LWSSEQ_HEARTBEAT) = false) :
    ∀ pt, heartbeatsIn (queueOf (qefold l alloc k d a pt) y)
      = heartbeatsIn (queueOf pt y) := by
  induction l with
  | nil => intro pt; rfl
  | cons x t ih =>
    intro pt
    rw [qefold_cons, ih, queue_event_heartbeatsIn _ _ _ _ _ _ _ hk]

theorem qefold_pendingInvariant (l : List Nat) (alloc : Bool) (k d a : Nat) :
    ∀ pt, pendingInvariant pt → pendingInvariant (qefold l alloc k d a pt) := by
  induction l with
  | nil => intro pt h; exact h
  | cons x t ih =>
    intro pt h
    rw [qefold_cons]
    exact ih _ (queue_event_pendingInvariant _ _ _ _ _ _ h)

theorem qefold_target (k d a sid : Nat) (s : lws_seq_t) :
    ∀ (l : List Nat) (pt : lws_context_per_thread), l.Nodup → sid ∈ l →
      storeGet pt.store sid = some s → s.going_down = false →
      storeGet (qefold l true k d a pt).store sid =
        some { s with seq_event_owner := s.seq_event_owner ++ [⟨k, d, a⟩] } := by
  intro l
  induction l with
  | nil => intro pt _ hl; cases hl
  | cons x t ih =>
    intro pt hnd hl hs hgd
    rw [qefold_cons]
    rcases List.mem_cons.mp hl with hx | hlt
    · subst hx
      rw [queue_event_success pt sid s k d a hs hgd]
      have hxt : sid ∉ t := (List.nodup_cons.mp hnd).1
      rw [qefold_storeGet_notmem t true k d a sid hxt]
      exact storeGet_set_self _ _ _ _ hs
    · by_cases hx : x = sid
      · exact absurd hlt (hx ▸ (List.nodup_cons.mp hnd).1)
      · have hpres := queue_event_storeGet_ne pt (some x) true k d a sid
          (fun hc => hx (Option.some.inj hc))
        exact ih _ (List.nodup_cons.mp hnd).2 hlt (by rw [hpres]; exact hs) hgd

theorem qefold_going_down_target (alloc : Bool) (k d a sid : Nat) (s : lws_seq_t) :
    ∀ (l : List Nat) (pt : lws_context_per_thread),
      storeGet pt.store sid = some s → s.going_down = true →
      storeGet (qefold l alloc k d a pt).store sid = some s := by
  intro l
  induction l with
  | nil => intro pt hs _; exact hs
  | cons x t ih =>
    intro pt hs hgd
    rw [qefold_cons]
    by_cases hx : x = sid
    · subst hx
      rw [queue_event_going_down_target pt x s alloc k d a hs hgd]
      exact ih pt hs hgd
    · have hpres := queue_event_storeGet_ne pt (some x) alloc k d a sid
        (fun hc => hx (Option.some.inj hc))
      exact ih _ (by rw [hpres]; exact hs) hgd

/-! ### __lws_seq_timeout_check branch characterizations -/

theorem timeout_check_lt (pt : lws_context_per_thread) (usnow : Int)
    (alloc : Bool) (h : usnow - pt.last_heartbeat < LWS_US_PER_SEC) :
    __lws_seq_timeout_check pt usnow alloc =
      ((__lws_sul_check pt.seq_to_owner usnow).2.2,
       qefold (__lws_sul_check pt.seq_to_owner usnow).1 alloc LWSSEQ_TIMED_OUT 0 0
         { pt with seq_to_owner := (__lws_sul_check pt.seq_to_owner usnow).2.1 }) := by
  simp only [__lws_seq_timeout_check]
  have hlh : (qefold (__lws_sul_check pt.seq_to_owner usnow).1 alloc LWSSEQ_TIMED_OUT 0 0
      { pt with seq_to_owner := (__lws_sul_check pt.seq_to_owner usnow).2.1 }).last_heartbeat
      = pt.last_heartbeat := by
    rw [qefold_last_heartbeat]
  rw [hlh, if_pos h]

theorem timeout_check_ge (pt : lws_context_per_thread) (usnow : Int)
    (alloc : Bool) (h : ¬(usnow - pt.last_heartbeat < LWS_US_PER_SEC)) :
    __lws_seq_timeout_check pt usnow alloc =
      ((__lws_sul_check pt.seq_to_owner usnow).2.2,
       qefold pt.seq_owner alloc LWSSEQ_HEARTBEAT 0 0
         { qefold (__lws_sul_check pt.seq_to_owner usnow).1 alloc LWSSEQ_TIMED_OUT 0 0
             { pt with seq_to_owner := (__lws_sul_check pt.seq_to_owner usnow).2.1 }
           with last_heartbeat := usnow }) := by
  simp only [__lws_seq_timeout_check]
  have hlh : (qefold (__lws_sul_check pt.seq_to_owner usnow).1 alloc LWSSEQ_TIMED_OUT 0 0
      { pt with seq_to_owner := (__lws_sul_check pt.seq_to_owner usnow).2.1 }).last_heartbeat
      = pt.last_heartbeat := by
    rw [qefold_last_heartbeat]
  rw [hlh, if_neg h]
  have hso : ({ qefold (__lws_sul_check pt.seq_to_owner usnow).1 alloc LWSSEQ_TIMED_OUT 0 0
      { pt with seq_to_owner := (__lws_sul_check pt.seq_to_owner usnow).2.1 }
      with last_heartbeat := usnow } : lws_context_per_thread).seq_owner = pt.seq_owner := by
    show (qefold (__lws_sul_check pt.seq_to_owner usnow).1 alloc LWSSEQ_TIMED_OUT 0 0
      { pt with seq_to_owner := (__lws_sul_check pt.seq_to_owner usnow).2.1 }).seq_owner
      = pt.seq_owner
    rw [qefold_seq_owner]
  rw [hso]

theorem timeout_check_pendingInvariant (pt : lws_context_per_thread)
    (usnow : Int) (alloc : Bool) (hinv : pendingInvariant pt) :
    pendingInvariant (__lws_seq_timeout_check pt usnow alloc).2 := by
  have h1 : pendingInvariant
      { pt with seq_to_owner := (__lws_sul_check pt.seq_to_owner usnow).2.1 } := hinv
  have h2 := qefold_pendingInvariant (__lws_sul_check pt.seq_to_owner usnow).1
    alloc LWSSEQ_TIMED_OUT 0 0 _ h1
  by_cases hc : usnow - pt.last_heartbeat < LWS_US_PER_SEC
  · rw [timeout_check_lt pt usnow alloc hc]
    exact h2
  · rw [timeout_check_ge pt usnow alloc hc]
    exact qefold_pendingInvariant _ _ _ _ _ _ h2

/-! ### Callback-log counting -/

theorem deliveredTo_nil (sid : Nat) : deliveredTo [] sid = 0 := rfl

theorem deliveredTo_append (l1 l2 : List CbCall) (sid : Nat) :
    deliveredTo (l1 ++ l2) sid = deliveredTo l1 sid + deliveredTo l2 sid := by
  simp [deliveredTo, List.countP_append]

theorem deliveredTo_single (c : CbCall) (sid : Nat) :
    deliveredTo [c] sid = if c.sid = sid then 1 else 0 := by
  by_cases h : c.sid = sid <;> simp [deliveredTo, List.countP_cons, h]

/-! ### Dispatch-pass characterizations -/

theorem seqPendForeach_nil (cb : SeqCb) (pt : lws_context_per_thread) :
    seqPendForeach cb [] pt = ⟨0, [], pt⟩ := rfl

theorem seqPendForeach_cons_none (cb : SeqCb) (x : Nat) (t : List Nat)
    (pt : lws_context_per_thread) (hr : lws_seq_next_event pt x cb = none) :
    seqPendForeach cb (x :: t) pt = seqPendForeach cb t pt := by
  simp [seqPendForeach, hr]

theorem seqPendForeach_cons_cont (cb : SeqCb) (x : Nat) (t : List Nat)
    (pt : lws_context_per_thread) (r : DispatchResult)
    (hr : lws_seq_next_event pt x cb = some r) (hret : r.ret = 0) :
    seqPendForeach cb (x :: t) pt =
      ⟨(seqPendForeach cb t r.pt).ret, r.log ++ (seqPendForeach cb t r.pt).log,
       (seqPendForeach cb t r.pt).pt⟩ := by
  simp [seqPendForeach, hr, hret]

theorem mem_pend_after_pop (pend : List Nat) (x sid : Nat) (hxs : sid ≠ x)
    (b : Bool) :
    (sid ∈ (if b then dll2_remove pend x else pend)) ↔ sid ∈ pend := by
  cases b
  · simp
  · constructor
    · intro h
      exact ((mem_dll2_remove _ _ _).mp (by simpa using h)).1
    · intro h
      simpa using (mem_dll2_remove _ _ _).mpr ⟨h, hxs⟩

theorem foreach_cont_other (cb : SeqCb) (hcb : ∀ i e d a, cb i e d a = 0)
    (sid : Nat) :
    ∀ (l : List Nat) (pt : lws_context_per_thread), sid ∉ l →
      storeGet (seqPendForeach cb l pt).pt.store sid = storeGet pt.store sid ∧
      ((sid ∈ (seqPendForeach cb l pt).pt.seq_pend_owner) ↔
        sid ∈ pt.seq_pend_owner) ∧
      deliveredTo (seqPendForeach cb l pt).log sid = 0 := by
  intro l
  induction l with
  | nil => intro pt _; exact ⟨rfl, Iff.rfl, rfl⟩
  | cons x t ih =>
    intro pt hx
    have hxs : sid ≠ x := fun hc => hx (hc ▸ List.mem_cons_self x t)
    have hxt : sid ∉ t := fun hc => hx (List.mem_cons_of_mem x hc)
    rcases next_event_none_or_cont pt x cb hcb with hne | ⟨s, ev, rest, hs, hq, hne⟩
    · rw [seqPendForeach_cons_none cb x t pt hne]
      exact ih pt hxt
    · rw [seqPendForeach_cons_cont cb x t pt _ hne rfl]
      dsimp only
      obtain ⟨o1, o2, o3⟩ := ih
        { pt with
            store := storeSet pt.store x { s with seq_event_owner := rest },
            seq_pend_owner :=
              if rest.isEmpty then dll2_remove pt.seq_pend_owner x
              else pt.seq_pend_owner } hxt
      refine ⟨?_, ?_, ?_⟩
      · rw [o1]
        exact storeGet_set_ne _ _ _ _ hxs
      · rw [o2]
        exact mem_pend_after_pop pt.seq_pend_owner x sid hxs rest.isEmpty
      · rw [deliveredTo_append, o3, deliveredTo_single]
        have hxs2 : ¬(x = sid) := fun hc => hxs hc.symm
        simp [hxs2]

theorem foreach_cont_self (cb : SeqCb) (hcb : ∀ i e d a, cb i e d a = 0)
    (sid : Nat) (s : lws_seq_t) (ev : lws_seq_event_t)
    (rest : List lws_seq_event_t) :
    ∀ (l : List Nat) (pt : lws_context_per_thread), l.Nodup → sid ∈ l →
      storeGet pt.store sid = some s → s.seq_event_owner = ev :: rest →
      storeGet (seqPendForeach cb l pt).pt.store sid =
        some { s with seq_event_owner := rest } ∧
      deliveredTo (seqPendForeach cb l pt).log sid = 1 ∧
      (rest ≠ [] → ((sid ∈ (seqPendForeach cb l pt).pt.seq_pend_owner) ↔
        sid ∈ pt.seq_pend_owner)) := by
  intro l
  induction l with
  | nil => intro pt _ hl; cases hl
  | cons x t ih =>
    intro pt hnd hl hs hq
    rcases List.mem_cons.mp hl with hx | hlt
    · subst hx
      have hne := next_event_continue pt sid cb s ev rest hs hq (hcb _ _ _ _)
      rw [seqPendForeach_cons_cont cb sid t pt _ hne rfl]
      dsimp only
      have hsidt : sid ∉ t := (List.nodup_cons.mp hnd).1
      obtain ⟨o1, o2, o3⟩ := foreach_cont_other cb hcb sid t
        { pt with
            store := storeSet pt.store sid { s with seq_event_owner := rest },
            seq_pend_owner :=
              if rest.isEmpty then dll2_remove pt.seq_pend_owner sid
              else pt.seq_pend_owner } hsidt
      refine ⟨?_, ?_, ?_⟩
      · rw [o1]
        exact storeGet_set_self _ _ _ _ hs
      · rw [deliveredTo_append, o3, deliveredTo_single]
        simp
      · intro hrest
        rw [o2]
        have hie : rest.isEmpty = false := by
          cases rest with
          | nil => exact absurd rfl hrest
          | cons b bt => rfl
        simp [hie]
    · by_cases hx : x = sid
      · exact absurd hlt (hx ▸ (List.nodup_cons.mp hnd).1)
      · have hxs : sid ≠ x := fun hc => hx hc.symm
        rcases next_event_none_or_cont pt x cb hcb with hne | ⟨s2, ev2, rest2, hs2, hq2, hne⟩
        · rw [seqPendForeach_cons_none cb x t pt hne]
          exact ih pt (List.nodup_cons.mp hnd).2 hlt hs hq
        · rw [seqPendForeach_cons_cont cb x t pt _ hne rfl]
          dsimp only
          have hs1 : storeGet
              ({ pt with
                  store := storeSet pt.store x { s2 with seq_event_owner := rest2 },
                  seq_pend_owner :=
                    if rest2.isEmpty then dll2_remove pt.seq_pend_owner x
                    else pt.seq_pend_owner } : lws_context_per_thread).store sid
              = some s := by
            show storeGet (storeSet pt.store x { s2 with seq_event_owner := rest2 }) sid = some s
            rw [storeGet_set_ne _ _ _ _ hxs]
            exact hs
          obtain ⟨i1, i2, i3⟩ := ih _ (List.nodup_cons.mp hnd).2 hlt hs1 hq
          refine ⟨i1, ?_, ?_⟩
          · rw [deliveredTo_append, i2, deliveredTo_single]
            simp [hx]
          · intro hrest
            rw [i3 hrest]
            exact mem_pend_after_pop pt.seq_pend_owner x sid hxs rest2.isEmpty

theorem do_pending_empty (pt : lws_context_per_thread) (cb : SeqCb)
    (h : pt.seq_pend_owner = []) :
    lws_pt_do_pending_sequencer_events pt cb = ⟨0, [], pt⟩ := by
  simp [lws_pt_do_pending_sequencer_events, h]

theorem do_pending_nonempty (pt : lws_context_per_thread) (cb : SeqCb)
    (h : pt.seq_pend_owner ≠ []) :
    lws_pt_do_pending_sequencer_events pt cb =
      seqPendForeach cb pt.seq_pend_owner pt := by
  have hie : pt.seq_pend_owner.isEmpty = false := by
    cases hp : pt.seq_pend_owner with
    | nil => exact absurd hp h
    | cons b bt => rfl
  simp [lws_pt_do_pending_sequencer_events, hie]

/-! ### Single-sequencer FIFO machinery -/

theorem cbContinue_zero : ∀ i e d a, cbContinue i e d a = 0 := fun _ _ _ _ => rfl

theorem queueEvents_nil (pt : lws_context_per_thread) (sid : Nat) :
    queueEvents pt sid [] = pt := rfl

theorem queueEvents_cons (pt : lws_context_per_thread) (sid : Nat)
    (ev : lws_seq_event_t) (evs : List lws_seq_event_t) :
    queueEvents pt sid (ev :: evs) =
      queueEvents (lws_seq_queue_event pt (some sid) true ev.e ev.data ev.aux).pt
        sid evs := rfl

theorem dispatchPasses_zero (cb : SeqCb) (pt : lws_context_per_thread) :
    dispatchPasses cb 0 pt = ([], pt) := rfl

theorem dispatchPasses_succ (cb : SeqCb) (k : Nat) (pt : lws_context_per_thread) :
    dispatchPasses cb (k + 1) pt =
      ((lws_pt_do_pending_sequencer_events pt cb).log ++
        (dispatchPasses cb k (lws_pt_do_pending_sequencer_events pt cb).pt).1,
       (dispatchPasses cb k (lws_pt_do_pending_sequencer_events pt cb).pt).2) := rfl

theorem queue_event_singleSeq (sid : Nat) (nm : String) (tc hb : Int)
    (q : List lws_seq_event_t) (ev : lws_seq_event_t) :
    (lws_seq_queue_event (singleSeqPT sid nm tc hb q) (some sid) true
      ev.e ev.data ev.aux).pt = singleSeqPT sid nm tc hb (q ++ [ev]) := by
  have hs : storeGet (singleSeqPT sid nm tc hb q).store sid =
      some ⟨q, nm, tc, false⟩ := by
    simp [singleSeqPT, storeGet]
  rw [queue_event_success _ _ _ _ _ _ hs rfl]
  cases q <;> simp [singleSeqPT, storeSet]

theorem queueEvents_singleSeq (sid : Nat) (nm : String) (tc hb : Int) :
    ∀ (evs : List lws_seq_event_t) (q : List lws_seq_event_t),
      queueEvents (singleSeqPT sid nm tc hb q) sid evs =
        singleSeqPT sid nm tc hb (q ++ evs) := by
  intro evs
  induction evs with
  | nil => intro q; simp [queueEvents_nil]
  | cons ev t ih =>
    intro q
    rw [queueEvents_cons, queue_event_singleSeq, ih]
    simp

theorem do_pending_singleSeq (sid : Nat) (nm : String) (tc hb : Int)
    (ev : lws_seq_event_t) (t : List lws_seq_event_t) :
    lws_pt_do_pending_sequencer_events (singleSeqPT sid nm tc hb (ev :: t))
        cbContinue =
      ⟨0, [⟨sid, ev.e, ev.data, ev.aux⟩], singleSeqPT sid nm tc hb t⟩ := by
  rw [do_pending_nonempty _ _ (by simp [singleSeqPT])]
  have hs : storeGet (singleSeqPT sid nm tc hb (ev :: t)).store sid =
      some ⟨ev :: t, nm, tc, false⟩ := by
    simp [singleSeqPT, storeGet]
  have hne := next_event_continue (singleSeqPT sid nm tc hb (ev :: t)) sid
    cbContinue ⟨ev :: t, nm, tc, false⟩ ev t hs rfl rfl
  rw [show (singleSeqPT sid nm tc hb (ev :: t)).seq_pend_owner = [sid] from
    by simp [singleSeqPT]]
  rw [seqPendForeach_cons_cont cbContinue sid [] _ _ hne rfl, seqPendForeach_nil]
  dsimp only
  refine congrArg (fun p => PassResult.mk 0 [⟨sid, ev.e, ev.data, ev.aux⟩] p) ?_
  cases t <;> simp [singleSeqPT, storeSet, dll2_remove]

theorem dispatchPasses_singleSeq (sid : Nat) (nm : String) (tc hb : Int) :
    ∀ q : List lws_seq_event_t,
      dispatchPasses cbContinue q.length (singleSeqPT sid nm tc hb q) =
        (q.map (fun ev => ⟨sid, ev.e, ev.data, ev.aux⟩),
         singleSeqPT sid nm tc hb []) := by
  intro q
  induction q with
  | nil => rfl
  | cons ev t ih =>
    show dispatchPasses cbContinue (t.length + 1)
      (singleSeqPT sid nm tc hb (ev :: t)) = _
    rw [dispatchPasses_succ, do_pending_singleSeq]
    dsimp only
    rw [ih]
    simp

/-! ### Claim theorems -/

/-- C1: for every sequencer owned by a thread context, at every lock-quiescent
point after any operation (queue_event, dispatch of one event, destroy,
timeout/heartbeat check), the sequencer is a member of the context's pending
set iff its event queue is non-empty: each of the four operations preserves
`pendingInvariant`. -/
theorem C1_pending_set_invariant (pt : lws_context_per_thread)
    (hinv : pendingInvariant pt) :
    (∀ (seqOpt : Option Nat) (alloc : Bool) (e d a : Nat),
      pendingInvariant (lws_seq_queue_event pt seqOpt alloc e d a).pt) ∧
    (∀ (sid : Nat) (cb : SeqCb) (r : DispatchResult),
      lws_seq_next_event pt sid cb = some r → pendingInvariant r.pt) ∧
    (∀ (sid : Nat) (cb : SeqCb),
      pendingInvariant (lws_seq_destroy pt sid cb).pt) ∧
    (∀ (usnow : Int) (alloc : Bool),
      pendingInvariant (__lws_seq_timeout_check pt usnow alloc).2) :=
  ⟨fun seqOpt alloc e d a => queue_event_pendingInvariant pt seqOpt alloc e d a hinv,
   fun sid cb r hr => next_event_pendingInvariant pt sid cb r hinv hr,
   fun sid cb => destroy_pendingInvariant pt sid cb hinv,
   fun usnow alloc => timeout_check_pendingInvariant pt usnow alloc hinv⟩

/-- Witness for C1 at a concrete context: the invariant holds and is
preserved by a concrete enqueue. -/
theorem C1_pending_set_invariant_witness :
    pendingInvariant (singleSeqPT 0 "w1" 0 0 [⟨5, 6, 7⟩]) ∧
    pendingInvariant
      (lws_seq_queue_event (singleSeqPT 0 "w1" 0 0 [⟨5, 6, 7⟩]) (some 0) true
        8 9 10).pt :=
  ⟨by decide,
   (C1_pending_set_invariant (singleSeqPT 0 "w1" 0 0 [⟨5, 6, 7⟩]) (by decide)).1
     (some 0) true 8 9 10⟩

/-- C2: events queued to one sequencer without interleaved dispatch are
delivered to the callback by repeated dispatch passes in exactly the order
they were enqueued (oldest first), with no reordering by kind or priority:
the concatenated callback log is the queued list itself, in order. -/
theorem C2_fifo_order (sid : Nat) (nm : String) (tc hb : Int)
    (evs : List lws_seq_event_t) :
    (dispatchPasses cbContinue evs.length
      (queueEvents (singleSeqPT sid nm tc hb []) sid evs)).1
      = evs.map (fun ev => ⟨sid, ev.e, ev.data, ev.aux⟩) := by
  rw [queueEvents_singleSeq]
  rw [show ([] : List lws_seq_event_t) ++ evs = evs from by simp]
  rw [dispatchPasses_singleSeq]

/-- C3 counterexample: the claim says the dispatched event is detached from
the queue before the callback runs; in fact `lws_seq_next_event` invokes the
callback first and detaches afterwards, so at the moment the callback runs
(state `pt_at_cb`) the delivered event is still linked at the head of the
queue. -/
theorem C3_counterexample :
    lws_seq_next_event (singleSeqPT 0 "c3" 0 0 [⟨5, 7, 8⟩]) 0 cbContinue =
      some ⟨LWSSEQ_RET_CONTINUE, ⟨5, 7, 8⟩, singleSeqPT 0 "c3" 0 0 [⟨5, 7, 8⟩],
        [⟨0, 5, 7, 8⟩], singleSeqPT 0 "c3" 0 0 []⟩ ∧
    (⟨5, 7, 8⟩ : lws_seq_event_t) ∈
      queueOf (singleSeqPT 0 "c3" 0 0 [⟨5, 7, 8⟩]) 0 := by
  constructor
  · rfl
  · simp [queueOf, singleSeqPT, storeGet]

/-- C3 amended: during a dispatch the callback is invoked on the queue head
while that event is still linked in the queue (the state the callback
observes is the entry state, whose queue still starts with the delivered
event); the event is detached and freed only after the callback returns (in
the CONTINUE case the queue afterwards is the original minus its head). -/
theorem C3_detach_after_callback (pt : lws_context_per_thread) (sid : Nat)
    (cb : SeqCb) (s : lws_seq_t) (ev : lws_seq_event_t)
    (rest : List lws_seq_event_t) (r : DispatchResult)
    (hs : storeGet pt.store sid = some s)
    (hq : s.seq_event_owner = ev :: rest)
    (hr : lws_seq_next_event pt sid cb = some r) :
    r.delivered = ev ∧ r.pt_at_cb = pt ∧
    queueOf r.pt_at_cb sid = ev :: rest ∧
    r.delivered ∈ queueOf r.pt_at_cb sid ∧
    (r.ret = 0 → queueOf r.pt sid = rest) := by
  revert hr
  simp only [lws_seq_next_event, hs, hq]
  by_cases hn : cb sid ev.e ev.data ev.aux = 0
  · simp only [hn, ne_eq, not_true_eq_false, if_false, reduceIte]
    intro hr
    have hr2 := Option.some.inj hr
    rw [← hr2]
    dsimp only
    refine ⟨rfl, rfl, ?_, ?_, ?_⟩
    · simp [queueOf, hs, hq]
    · simp [queueOf, hs, hq]
    · intro _
      simp [queueOf, storeGet_set_self _ _ _ _ hs]
  · simp only [hn, ne_eq, not_false_eq_true, if_true, reduceIte]
    intro hr
    have hr2 := Option.some.inj hr
    rw [← hr2]
    dsimp only
    refine ⟨rfl, rfl, ?_, ?_, ?_⟩
    · simp [queueOf, hs, hq]
    · simp [queueOf, hs, hq]
    · intro h0
      exact absurd h0 (by simp [LWSSEQ_RET_DESTROY])

/-- Witness for the amended C3 at a concrete input. -/
theorem C3_detach_after_callback_witness :
    queueOf (singleSeqPT 1 "w3" 0 0 [⟨5, 7, 8⟩, ⟨6, 0, 0⟩]) 1 =
      ⟨5, 7, 8⟩ :: [⟨6, 0, 0⟩] ∧
    (⟨5, 7, 8⟩ : lws_seq_event_t) ∈
      queueOf (singleSeqPT 1 "w3" 0 0 [⟨5, 7, 8⟩, ⟨6, 0, 0⟩]) 1 := by
  have h := C3_detach_after_callback (singleSeqPT 1 "w3" 0 0 [⟨5, 7, 8⟩, ⟨6, 0, 0⟩])
    1 cbContinue ⟨[⟨5, 7, 8⟩, ⟨6, 0, 0⟩], "w3", 0, false⟩ ⟨5, 7, 8⟩ [⟨6, 0, 0⟩]
    ⟨LWSSEQ_RET_CONTINUE, ⟨5, 7, 8⟩, singleSeqPT 1 "w3" 0 0 [⟨5, 7, 8⟩, ⟨6, 0, 0⟩],
      [⟨1, 5, 7, 8⟩], { singleSeqPT 1 "w3" 0 0 [⟨5, 7, 8⟩, ⟨6, 0, 0⟩] with
        store := storeSet (singleSeqPT 1 "w3" 0 0 [⟨5, 7, 8⟩, ⟨6, 0, 0⟩]).store 1
          ⟨[⟨6, 0, 0⟩], "w3", 0, false⟩ }⟩
    rfl rfl rfl
  exact ⟨h.2.2.1, h.2.2.2.1⟩

/-- C4: `lws_seq_queue_event` rejects (nonzero return) iff the sequencer
pointer is NULL, `going_down` is set, or the event-node allocation fails;
every rejection leaves the context unchanged; every other call succeeds and
appends the event, with queue depth beyond the sanity threshold (10) causing
only the log flag, never a failure or a dropped event. -/
theorem C4_queue_event_rejection (pt : lws_context_per_thread)
    (seqOpt : Option Nat) (alloc : Bool) (e d a : Nat)
    (hvalid : ∀ sid, seqOpt = some sid → storeGet pt.store sid ≠ none) :
    ((lws_seq_queue_event pt seqOpt alloc e d a).ret ≠ 0 ↔
      (seqOpt = none ∨
       (∃ sid s, seqOpt = some sid ∧ storeGet pt.store sid = some s ∧
         s.going_down = true) ∨ alloc = false)) ∧
    ((lws_seq_queue_event pt seqOpt alloc e d a).ret ≠ 0 →
      (lws_seq_queue_event pt seqOpt alloc e d a).pt = pt) ∧
    (∀ sid s, seqOpt = some sid → storeGet pt.store sid = some s →
      s.going_down = false → alloc = true →
      (lws_seq_queue_event pt seqOpt alloc e d a).ret = 0 ∧
      queueOf (lws_seq_queue_event pt seqOpt alloc e d a).pt sid =
        s.seq_event_owner ++ [⟨e, d, a⟩] ∧
      ((lws_seq_queue_event pt seqOpt alloc e d a).logged = true ↔
        QUEUE_SANITY_LIMIT < s.seq_event_owner.length)) := by
  cases seqOpt with
  | none =>
    refine ⟨?_, fun _ => rfl, ?_⟩
    · simp [lws_seq_queue_event]
    · intro sid s hcon
      exact absurd hcon (by simp)
  | some sid =>
    cases hs : storeGet pt.store sid with
    | none => exact absurd hs (hvalid sid rfl)
    | some s =>
      cases hgd : s.going_down with
      | true =>
        rw [queue_event_going_down_target pt sid s alloc e d a hs hgd]
        refine ⟨?_, fun _ => rfl, ?_⟩
        · exact ⟨fun _ => Or.inr (Or.inl ⟨sid, s, rfl, hs, hgd⟩),
            fun _ => one_ne_zero⟩
        · intro sid2 s2 heq hs2 hgd2
          injection heq with heq2
          subst heq2
          rw [hs] at hs2
          injection hs2 with hs3
          subst hs3
          rw [hgd] at hgd2
          exact absurd hgd2 (by decide)
      | false =>
        cases alloc with
        | false =>
          rw [queue_event_alloc_false]
          refine ⟨?_, fun _ => rfl, ?_⟩
          · exact ⟨fun _ => Or.inr (Or.inr rfl), fun _ => one_ne_zero⟩
          · intro sid2 s2 _ _ _ hal
            exact absurd hal (by decide)
        | true =>
          rw [queue_event_success pt sid s e d a hs hgd]
          refine ⟨?_, ?_, ?_⟩
          · constructor
            · intro h0; exact absurd rfl h0
            · rintro (hno | ⟨sid2, s2, heq, hs2, hgd2⟩ | hal)
              · exact Option.noConfusion hno
              · injection heq with heq2
                subst heq2
                rw [hs] at hs2
                injection hs2 with hs3
                subst hs3
                rw [hgd] at hgd2
                exact absurd hgd2 (by decide)
              · exact absurd hal (by decide)
          · intro h0; exact absurd rfl h0
          · intro sid2 s2 heq hs2 hgd2 _
            injection heq with heq2
            subst heq2
            rw [hs] at hs2
            injection hs2 with hs3
            subst hs3
            refine ⟨rfl, ?_, ?_⟩
            · simp [queueOf, storeGet_set_self _ _ _ _ hs]
            · simp

/-- Witness for C4 at a concrete context: a successful enqueue appends the
event with return code 0, and the sanity flag is off below the threshold. -/
theorem C4_queue_event_rejection_witness :
    (lws_seq_queue_event (singleSeqPT 0 "w4" 0 0 []) (some 0) true 5 6 7).ret = 0 ∧
    queueOf (lws_seq_queue_event (singleSeqPT 0 "w4" 0 0 []) (some 0) true 5 6 7).pt 0
      = [] ++ [⟨5, 6, 7⟩] ∧
    ((lws_seq_queue_event (singleSeqPT 0 "w4" 0 0 []) (some 0) true 5 6 7).logged = true ↔
      QUEUE_SANITY_LIMIT < ([] : List lws_seq_event_t).length) :=
  (C4_queue_event_rejection (singleSeqPT 0 "w4" 0 0 []) (some 0) true 5 6 7
    (fun sid hsid => by
      injection hsid with h2
      subst h2
      simp [singleSeqPT, storeGet])).2.2 0 ⟨[], "w4", 0, false⟩ rfl rfl rfl rfl

/-- C5: with callbacks answering CONTINUE, a single dispatch pass over a
context whose pending list has no duplicates and satisfies the pending-set
invariant delivers exactly one event to a sequencer holding K>1 queued
events, leaving the K−1 remaining events queued and the sequencer still
pending; a pass over an empty pending set does nothing. -/
theorem C5_one_event_per_pass (pt : lws_context_per_thread) (cb : SeqCb)
    (sid : Nat) (s : lws_seq_t)
    (hcb : ∀ i e d a, cb i e d a = 0)
    (hnd : pt.seq_pend_owner.Nodup)
    (hinv : pendingInvariant pt)
    (hs : storeGet pt.store sid = some s)
    (hK : 1 < s.seq_event_owner.length) :
    deliveredTo (lws_pt_do_pending_sequencer_events pt cb).log sid = 1 ∧
    queueOf (lws_pt_do_pending_sequencer_events pt cb).pt sid
      = s.seq_event_owner.tail ∧
    (queueOf (lws_pt_do_pending_sequencer_events pt cb).pt sid).length
      = s.seq_event_owner.length - 1 ∧
    sid ∈ (lws_pt_do_pending_sequencer_events pt cb).pt.seq_pend_owner ∧
    (∀ pt2 : lws_context_per_thread, pt2.seq_pend_owner = [] →
      lws_pt_do_pending_sequencer_events pt2 cb = ⟨0, [], pt2⟩) := by
  cases hq : s.seq_event_owner with
  | nil => rw [hq] at hK; exact absurd hK (by decide)
  | cons ev rest =>
    have hrest : rest ≠ [] := by
      rw [hq] at hK
      cases rest with
      | nil => exact absurd hK (by simp)
      | cons b bt => exact fun hc => List.noConfusion hc
    have hpend : sid ∈ pt.seq_pend_owner := by
      apply (hinv sid (mem_storeKeys_of_get _ _ _ hs)).mpr
      simp [queueOf, hs, hq]
    have hpne : pt.seq_pend_owner ≠ [] := List.ne_nil_of_mem hpend
    rw [do_pending_nonempty pt cb hpne]
    obtain ⟨f1, f2, f3⟩ := foreach_cont_self cb hcb sid s ev rest
      pt.seq_pend_owner pt hnd hpend hs hq
    refine ⟨f2, ?_, ?_, ?_, ?_⟩
    · simp [queueOf, f1]
    · simp [queueOf, f1]
    · exact (f3 hrest).mpr hpend
    · intro pt2 h2
      exact do_pending_empty pt2 cb h2

/-- Witness for C5 at a concrete context with two queued events. -/
theorem C5_one_event_per_pass_witness :
    deliveredTo (lws_pt_do_pending_sequencer_events
      (singleSeqPT 0 "w5" 0 0 [⟨5, 0, 0⟩, ⟨6, 0, 0⟩]) cbContinue).log 0 = 1 ∧
    queueOf (lws_pt_do_pending_sequencer_events
      (singleSeqPT 0 "w5" 0 0 [⟨5, 0, 0⟩, ⟨6, 0, 0⟩]) cbContinue).pt 0
      = [⟨5, 0, 0⟩, ⟨6, 0, 0⟩].tail ∧
    (queueOf (lws_pt_do_pending_sequencer_events
      (singleSeqPT 0 "w5" 0 0 [⟨5, 0, 0⟩, ⟨6, 0, 0⟩]) cbContinue).pt 0).length
      = ([⟨5, 0, 0⟩, ⟨6, 0, 0⟩] : List lws_seq_event_t).length - 1 ∧
    0 ∈ (lws_pt_do_pending_sequencer_events
      (singleSeqPT 0 "w5" 0 0 [⟨5, 0, 0⟩, ⟨6, 0, 0⟩]) cbContinue).pt.seq_pend_owner := by
  have h := C5_one_event_per_pass (singleSeqPT 0 "w5" 0 0 [⟨5, 0, 0⟩, ⟨6, 0, 0⟩])
    cbContinue 0 ⟨[⟨5, 0, 0⟩, ⟨6, 0, 0⟩], "w5", 0, false⟩ cbContinue_zero
    (by decide) (by decide) rfl (by decide)
  exact ⟨h.1, h.2.1, h.2.2.1, h.2.2.2.1⟩

/-- C6: destroy always completes and, in order: sets `going_down`, invokes
the callback exactly once with a DESTROYED event (direct, not taken from the
queue: the queue is untouched in the state the callback observes), then
removes the sequencer from the live, deadline and pending sets and frees the
queued events and the sequencer storage (its heap entry, which contains the
queued events, is gone). -/
theorem C6_destroy_completes (pt : lws_context_per_thread) (sid : Nat)
    (cb : SeqCb) (s : lws_seq_t) (hs : storeGet pt.store sid = some s) :
    (lws_seq_destroy pt sid cb).log = [⟨sid, LWSSEQ_DESTROYED, 0, 0⟩] ∧
    storeGet (lws_seq_destroy pt sid cb).pt_at_cb.store sid =
      some { s with going_down := true } ∧
    queueOf (lws_seq_destroy pt sid cb).pt_at_cb sid = s.seq_event_owner ∧
    storeGet (lws_seq_destroy pt sid cb).pt.store sid = none ∧
    sid ∉ (lws_seq_destroy pt sid cb).pt.seq_owner ∧
    sid ∉ (lws_seq_destroy pt sid cb).pt.seq_pend_owner ∧
    (∀ us : Int, (sid, us) ∉ (lws_seq_destroy pt sid cb).pt.seq_to_owner) := by
  rw [destroy_eq pt sid cb s hs]
  dsimp only
  refine ⟨rfl, ?_, ?_, ?_, ?_, ?_, ?_⟩
  · exact storeGet_set_self _ _ _ _ hs
  · simp [queueOf, storeGet_set_self _ _ _ _ hs]
  · exact storeGet_remove_self _ _
  · intro hmem; exact ((mem_dll2_remove _ _ _).mp hmem).2 rfl
  · intro hmem; exact ((mem_dll2_remove _ _ _).mp hmem).2 rfl
  · intro us hmem; exact ((mem_sul_remove _ _ _).mp hmem).2 rfl

/-- Witness for C6 at a concrete context with a queued event and an armed
deadline. -/
theorem C6_destroy_completes_witness :
    (lws_seq_destroy { singleSeqPT 0 "w6" 0 0 [⟨5, 6, 7⟩] with
      seq_to_owner := [(0, 50)] } 0 cbContinue).log =
      [⟨0, LWSSEQ_DESTROYED, 0, 0⟩] ∧
    storeGet (lws_seq_destroy { singleSeqPT 0 "w6" 0 0 [⟨5, 6, 7⟩] with
      seq_to_owner := [(0, 50)] } 0 cbContinue).pt.store 0 = none ∧
    (∀ us : Int, ((0 : Nat), us) ∉ (lws_seq_destroy
      { singleSeqPT 0 "w6" 0 0 [⟨5, 6, 7⟩] with seq_to_owner := [(0, 50)] }
      0 cbContinue).pt.seq_to_owner) := by
  have h := C6_destroy_completes
    { singleSeqPT 0 "w6" 0 0 [⟨5, 6, 7⟩] with seq_to_owner := [(0, 50)] } 0
    cbContinue ⟨[⟨5, 6, 7⟩], "w6", 0, false⟩ rfl
  exact ⟨h.1, h.2.2.2.1, h.2.2.2.2.2.2⟩

/-- C7: a timeout/heartbeat check less than one second (in microseconds)
after the context's last heartbeat queues no HEARTBEAT event anywhere and
leaves `last_heartbeat` unchanged; otherwise it sets `last_heartbeat` to
`usnow` and queues exactly one HEARTBEAT event to every sequencer on the
live list (not only pending ones) whose enqueue is not rejected, and none to
any sequencer off the live list. -/
theorem C7_heartbeat_cadence (pt : lws_context_per_thread) (usnow : Int)
    (alloc : Bool) (hnd : pt.seq_owner.Nodup) :
    (usnow - pt.last_heartbeat < LWS_US_PER_SEC →
      (__lws_seq_timeout_check pt usnow alloc).2.last_heartbeat
        = pt.last_heartbeat ∧
      (∀ x, heartbeatsIn (queueOf (__lws_seq_timeout_check pt usnow alloc).2 x)
        = heartbeatsIn (queueOf pt x))) ∧
    (LWS_US_PER_SEC ≤ usnow - pt.last_heartbeat →
      (__lws_seq_timeout_check pt usnow alloc).2.last_heartbeat = usnow ∧
      (∀ sid s, alloc = true → sid ∈ pt.seq_owner →
        storeGet pt.store sid = some s → s.going_down = false →
        heartbeatsIn (queueOf (__lws_seq_timeout_check pt usnow alloc).2 sid)
          = heartbeatsIn (queueOf pt sid) + 1) ∧
      (∀ x, x ∉ pt.seq_owner →
        heartbeatsIn (queueOf (__lws_seq_timeout_check pt usnow alloc).2 x)
          = heartbeatsIn (queueOf pt x))) := by
  constructor
  · intro hlt
    rw [timeout_check_lt pt usnow alloc hlt]
    dsimp only
    constructor
    · rw [qefold_last_heartbeat]
    · intro x
      exact qefold_heartbeatsIn (__lws_sul_check pt.seq_to_owner usnow).1 alloc
        LWSSEQ_TIMED_OUT 0 0 x (by decide)
        { pt with seq_to_owner := (__lws_sul_check pt.seq_to_owner usnow).2.1 }
  · intro hge
    have hnl : ¬(usnow - pt.last_heartbeat < LWS_US_PER_SEC) := not_lt.mpr hge
    rw [timeout_check_ge pt usnow alloc hnl]
    dsimp only
    refine ⟨?_, ?_, ?_⟩
    · rw [qefold_last_heartbeat]
    · intro sid s hal hmem hs hgd
      subst hal
      have hmap : (storeGet (qefold (__lws_sul_check pt.seq_to_owner usnow).1
          true LWSSEQ_TIMED_OUT 0 0
          { pt with seq_to_owner := (__lws_sul_check pt.seq_to_owner usnow).2.1 }).store
          sid).map (fun s => s.going_down)
          = (storeGet pt.store sid).map (fun s => s.going_down) :=
        qefold_going_down_map (__lws_sul_check pt.seq_to_owner usnow).1 true
          LWSSEQ_TIMED_OUT 0 0 sid
          { pt with seq_to_owner := (__lws_sul_check pt.seq_to_owner usnow).2.1 }
      cases hs2 : storeGet (qefold (__lws_sul_check pt.seq_to_owner usnow).1
          true LWSSEQ_TIMED_OUT 0 0
          { pt with seq_to_owner := (__lws_sul_check pt.seq_to_owner usnow).2.1 }).store
          sid with
      | none =>
        rw [hs2, hs] at hmap
        exact Option.noConfusion hmap
      | some s2 =>
        rw [hs2, hs] at hmap
        simp only [Option.map_some'] at hmap
        have hgd2 : s2.going_down = false := (Option.some.inj hmap).trans hgd
        have h3 : heartbeatsIn (queueOf (qefold
            (__lws_sul_check pt.seq_to_owner usnow).1 true LWSSEQ_TIMED_OUT 0 0
            { pt with seq_to_owner := (__lws_sul_check pt.seq_to_owner usnow).2.1 })
            sid) = heartbeatsIn (queueOf pt sid) :=
          qefold_heartbeatsIn (__lws_sul_check pt.seq_to_owner usnow).1 true
            LWSSEQ_TIMED_OUT 0 0 sid (by decide)
            { pt with seq_to_owner := (__lws_sul_check pt.seq_to_owner usnow).2.1 }
        rw [show queueOf (qefold (__lws_sul_check pt.seq_to_owner usnow).1 true
            LWSSEQ_TIMED_OUT 0 0
            { pt with seq_to_owner := (__lws_sul_check pt.seq_to_owner usnow).2.1 })
            sid = s2.seq_event_owner from by simp [queueOf, hs2]] at h3
        have htar := qefold_target LWSSEQ_HEARTBEAT 0 0 sid s2 pt.seq_owner
          ({ qefold (__lws_sul_check pt.seq_to_owner usnow).1 true
              LWSSEQ_TIMED_OUT 0 0
              { pt with seq_to_owner := (__lws_sul_check pt.seq_to_owner usnow).2.1 }
            with last_heartbeat := usnow }) hnd hmem hs2 hgd2
        rw [show queueOf (qefold pt.seq_owner true LWSSEQ_HEARTBEAT 0 0
            ({ qefold (__lws_sul_check pt.seq_to_owner usnow).1 true
                LWSSEQ_TIMED_OUT 0 0
                { pt with seq_to_owner := (__lws_sul_check pt.seq_to_owner usnow).2.1 }
              with last_heartbeat := usnow })) sid
            = s2.seq_event_owner ++ [⟨LWSSEQ_HEARTBEAT, 0, 0⟩] from
          by simp [queueOf, htar]]
        rw [heartbeatsIn_append, h3]
        rw [show heartbeatsIn [⟨LWSSEQ_HEARTBEAT, 0, 0⟩] = 1 from by decide]
    · intro x hx
      have hng := qefold_storeGet_notmem pt.seq_owner alloc LWSSEQ_HEARTBEAT 0 0
        x hx
        ({ qefold (__lws_sul_check pt.seq_to_owner usnow).1 alloc
            LWSSEQ_TIMED_OUT 0 0
            { pt with seq_to_owner := (__lws_sul_check pt.seq_to_owner usnow).2.1 }
          with last_heartbeat := usnow })
      rw [show queueOf (qefold pt.seq_owner alloc LWSSEQ_HEARTBEAT 0 0
          ({ qefold (__lws_sul_check pt.seq_to_owner usnow).1 alloc
              LWSSEQ_TIMED_OUT 0 0
              { pt with seq_to_owner := (__lws_sul_check pt.seq_to_owner usnow).2.1 }
            with last_heartbeat := usnow })) x
          = queueOf (qefold (__lws_sul_check pt.seq_to_owner usnow).1 alloc
              LWSSEQ_TIMED_OUT 0 0
              { pt with seq_to_owner := (__lws_sul_check pt.seq_to_owner usnow).2.1 }) x
          from by simp [queueOf, hng]]
      exact qefold_heartbeatsIn (__lws_sul_check pt.seq_to_owner usnow).1 alloc
        LWSSEQ_TIMED_OUT 0 0 x (by decide)
        { pt with seq_to_owner := (__lws_sul_check pt.seq_to_owner usnow).2.1 }

/-- Witness for C7: a due heartbeat bumps the HEARTBEAT count of the live
sequencer by one and sets the timestamp. -/
theorem C7_heartbeat_cadence_witness :
    (__lws_seq_timeout_check (singleSeqPT 0 "w7" 0 0 []) 2000000 true).2.last_heartbeat
      = 2000000 ∧
    heartbeatsIn (queueOf
      (__lws_seq_timeout_check (singleSeqPT 0 "w7" 0 0 []) 2000000 true).2 0)
      = heartbeatsIn (queueOf (singleSeqPT 0 "w7" 0 0 []) 0) + 1 := by
  have h := (C7_heartbeat_cadence (singleSeqPT 0 "w7" 0 0 []) 2000000 true
    (by decide)).2 (by decide)
  exact ⟨h.1, h.2.1 0 ⟨[], "w7", 0, false⟩ rfl (by decide) rfl rfl⟩

/-- C8 counterexample: the claim says the value returned by create is a
handle to the trailing user-state block; in fact `lws_seq_create` returns the
sequencer pointer itself (address 0 here) while the user-state handle
(address 1, one sequencer-header above) is written through the `puser` out
parameter; the two differ, though `lws_seq_from_user` does recover the
sequencer from the user-state handle. -/
theorem C8_counterexample :
    (lws_seq_create ptEmpty 0 true true "c8" 0).ret = some 0 ∧
    (lws_seq_create ptEmpty 0 true true "c8" 0).puser = some 1 ∧
    (lws_seq_create ptEmpty 0 true true "c8" 0).ret ≠
      (lws_seq_create ptEmpty 0 true true "c8" 0).puser ∧
    lws_seq_from_user 1 = 0 := by
  refine ⟨rfl, rfl, ?_, rfl⟩
  intro hc
  rw [show (lws_seq_create ptEmpty 0 true true "c8" 0).ret = some 0 from rfl,
    show (lws_seq_create ptEmpty 0 true true "c8" 0).puser = some 1 from rfl] at hc
  exact absurd (Option.some.inj hc) (by decide)

/-- C8 amended: a successful create returns the sequencer handle itself and
writes the user-state handle — the address one sequencer-header past the
sequencer — through the caller's `puser` out parameter; `lws_seq_from_user`
applied to that user-state handle recovers exactly the underlying sequencer
(round trip by fixed pointer arithmetic). -/
theorem C8_user_handle_round_trip (pt : lws_context_per_thread) (a : Nat)
    (nm : String) (now : Int) :
    (lws_seq_create pt a true true nm now).ret = some a ∧
    (lws_seq_create pt a true true nm now).puser = some (a + 1) ∧
    lws_seq_from_user (a + 1) = a := by
  have hq := queue_event_success
    { pt with store := (a, ⟨[], nm, now, false⟩) :: pt.store,
              seq_owner := pt.seq_owner ++ [a] } a ⟨[], nm, now, false⟩
    LWSSEQ_CREATED 0 0 (by simp [storeGet]) rfl
  simp only [lws_seq_create, hq]
  simp [lws_seq_from_user]

/-- C9 (code bug): `lws_seq_create` records `time_created` from the
microsecond clock, but `lws_seq_secs_since_creation` subtracts it from the
wall-clock-seconds clock; for a sequencer created at wall-clock second 2
(microsecond timestamp 2000000) and queried at wall-clock second 7 the code
yields 7 − 2000000 = −1999993 instead of the 5 elapsed seconds the spec
describes. -/
theorem C9_age_clock_mismatch :
    storeGet (lws_seq_create ptEmpty 0 true true "c9" 2000000).pt.store 0 =
      some ⟨[⟨LWSSEQ_CREATED, 0, 0⟩], "c9", 2000000, false⟩ ∧
    lws_seq_secs_since_creation ⟨[⟨LWSSEQ_CREATED, 0, 0⟩], "c9", 2000000, false⟩ 7
      = -1999993 ∧
    specSecsSinceCreation ⟨[⟨LWSSEQ_CREATED, 0, 0⟩], "c9", 2000000, false⟩ 7
      = 5 ∧
    lws_seq_secs_since_creation ⟨[⟨LWSSEQ_CREATED, 0, 0⟩], "c9", 2000000, false⟩ 7
      ≠ specSecsSinceCreation ⟨[⟨LWSSEQ_CREATED, 0, 0⟩], "c9", 2000000, false⟩ 7 := by
  refine ⟨rfl, by decide, by decide, by decide⟩

/-- C10: the timeout driver and heartbeat broadcast discard the rejection
status of `lws_seq_queue_event`: with every allocation failing, the run
changes no queue and no pending membership (the TIMED_OUT / HEARTBEAT events
are silently lost), the expired deadline is still consumed, and the caller
receives exactly the same return value as an all-success run; likewise an
enqueue rejected because the target is `going_down` leaves that sequencer
untouched even when allocation succeeds. -/
theorem C10_rejection_discarded (pt : lws_context_per_thread) (usnow D : Int)
    (sid : Nat) (rest : List (Nat × Int))
    (hto : pt.seq_to_owner = (sid, D) :: rest)
    (hexp : D ≤ usnow)
    (hnotin : (sid, D) ∉ rest) :
    (∀ x, storeGet (__lws_seq_timeout_check pt usnow false).2.store x
      = storeGet pt.store x) ∧
    (__lws_seq_timeout_check pt usnow false).2.seq_pend_owner
      = pt.seq_pend_owner ∧
    (sid, D) ∉ (__lws_seq_timeout_check pt usnow false).2.seq_to_owner ∧
    (__lws_seq_timeout_check pt usnow false).1
      = (__lws_seq_timeout_check pt usnow true).1 ∧
    (∀ x s, storeGet pt.store x = some s → s.going_down = true →
      storeGet (__lws_seq_timeout_check pt usnow true).2.store x = some s) := by
  have hsnd : (__lws_seq_timeout_check pt usnow false).2 =
      { pt with seq_to_owner := (__lws_sul_check pt.seq_to_owner usnow).2.1,
                last_heartbeat :=
                  if usnow - pt.last_heartbeat < LWS_US_PER_SEC then
                    pt.last_heartbeat else usnow } := by
    by_cases hc : usnow - pt.last_heartbeat < LWS_US_PER_SEC
    · rw [timeout_check_lt pt usnow false hc]
      dsimp only
      rw [qefold_alloc_false]
      simp [hc]
    · rw [timeout_check_ge pt usnow false hc]
      dsimp only
      rw [qefold_alloc_false, qefold_alloc_false]
      simp [hc]
  have hrem : (__lws_sul_check pt.seq_to_owner usnow).2.1
      = (__lws_sul_check rest usnow).2.1 := by
    rw [hto]
    simp [__lws_sul_check, hexp]
  refine ⟨?_, ?_, ?_, ?_, ?_⟩
  · intro x; rw [hsnd]
  · rw [hsnd]
  · rw [hsnd]
    intro hmem
    have hmem2 : (sid, D) ∈ (__lws_sul_check rest usnow).2.1 := by
      rw [← hrem]
      exact hmem
    exact hnotin (sul_check_remaining_subset rest usnow _ hmem2)
  · have hfst : ∀ al : Bool, (__lws_seq_timeout_check pt usnow al).1
        = (__lws_sul_check pt.seq_to_owner usnow).2.2 := by
      intro al
      by_cases hc : usnow - pt.last_heartbeat < LWS_US_PER_SEC
      · rw [timeout_check_lt pt usnow al hc]
      · rw [timeout_check_ge pt usnow al hc]
    rw [hfst false, hfst true]
  · intro x s hx hgd
    by_cases hc : usnow - pt.last_heartbeat < LWS_US_PER_SEC
    · rw [timeout_check_lt pt usnow true hc]
      dsimp only
      exact qefold_going_down_target true LWSSEQ_TIMED_OUT 0 0 x s _ _ hx hgd
    · rw [timeout_check_ge pt usnow true hc]
      dsimp only
      have h1 := qefold_going_down_target true LWSSEQ_TIMED_OUT 0 0 x s
        (__lws_sul_check pt.seq_to_owner usnow).1
        { pt with seq_to_owner := (__lws_sul_check pt.seq_to_owner usnow).2.1 }
        hx hgd
      exact qefold_going_down_target true LWSSEQ_HEARTBEAT 0 0 x s pt.seq_owner
        ({ qefold (__lws_sul_check pt.seq_to_owner usnow).1 true
            LWSSEQ_TIMED_OUT 0 0
            { pt with seq_to_owner := (__lws_sul_check pt.seq_to_owner usnow).2.1 }
          with last_heartbeat := usnow }) h1 hgd

/-- Witness for C10: with a single expired deadline and failing allocation,
the sequencer's heap entry is untouched, the deadline is consumed, and the
returned delay matches the all-success run. -/
theorem C10_rejection_discarded_witness :
    storeGet (__lws_seq_timeout_check
      { singleSeqPT 0 "wT" 0 0 [] with seq_to_owner := [(0, 50)] } 100 false).2.store 0
      = storeGet ({ singleSeqPT 0 "wT" 0 0 [] with
          seq_to_owner := [(0, 50)] } : lws_context_per_thread).store 0 ∧
    ((0 : Nat), (50 : Int)) ∉ (__lws_seq_timeout_check
      { singleSeqPT 0 "wT" 0 0 [] with seq_to_owner := [(0, 50)] } 100 false).2.seq_to_owner ∧
    (__lws_seq_timeout_check
      { singleSeqPT 0 "wT" 0 0 [] with seq_to_owner := [(0, 50)] } 100 false).1
      = (__lws_seq_timeout_check
      { singleSeqPT 0 "wT" 0 0 [] with seq_to_owner := [(0, 50)] } 100 true).1 := by
  have h := C10_rejection_discarded
    { singleSeqPT 0 "wT" 0 0 [] with seq_to_owner := [(0, 50)] } 100 50 0 []
    rfl (by decide) (by simp)
  exact ⟨h.1 0, h.2.2.1, h.2.2.2.1⟩
